import Mathlib

/-
  Verification of the overlay-generation engine of mach-nix
  (src/mach_nix/generators/overlay_generator.py).

  The Python module is shallowly embedded below.  Python strings are Lean
  `String`s; the handful of Python string primitives the module uses
  (`str.splitlines(keepends=True)`, slicing `s[n:]`, `str.join`, `str.strip`,
  `str.rstrip`, `sorted`, set comprehensions) are modelled by executable
  helpers defined first.  The external collaborators that the module imports
  (`NixpkgsDirectory`, `ResolvedPkg`) are not part of the translated file;
  they are modelled from the spec as a record of oracle functions and a plain
  record of fields, exactly as the spec's data model describes them.
  `dict` lookups that can raise `KeyError` are modelled with `Except String`,
  the error value being the missing key.
-/

-- ===================== Python string primitives =====================

/-- Lexicographic comparison of character lists by code point; this is the
order Python's `sorted` uses on `str` values. -/
def strLeb : List Char → List Char → Bool
  | [], _ => true
  | _ :: _, [] => false
  | a :: as, b :: bs => if a < b then true else if a = b then strLeb as bs else false

/-- Python's `<=` on strings (code-point lexicographic order). -/
def pyLe (a b : String) : Prop := strLeb a.data b.data = true

instance : DecidableRel pyLe := fun a b => by unfold pyLe; infer_instance

/-- Python's `sorted` on a list of strings. -/
def sortStr (l : List String) : List String := List.insertionSort pyLe l

/-- Python's `str.splitlines(keepends=True)` at the character level, for text
whose only line-break character is the newline (the module's templates and,
under the stated hypotheses, its inputs contain no other break character). -/
def splitKE : List Char → List (List Char)
  | [] => []
  | c :: rest =>
    if c = '\n' then ['\n'] :: splitKE rest
    else match splitKE rest with
      | [] => [[c]]
      | l :: ls => (c :: l) :: ls

/-- Python's slicing `s[n:]` (character based). -/
def strDrop (s : String) (n : Nat) : String := ⟨s.data.drop n⟩

/-- Python's `''.join(...)` over a list of strings. -/
def pyConcat : List String → String
  | [] => ""
  | x :: xs => x ++ pyConcat xs

/-- Python's `' '.join(...)` over a list of strings. -/
def joinSep : List String → String
  | [] => ""
  | [x] => x
  | x :: xs => x ++ " " ++ joinSep xs

/-- The exact character set Python's `str.strip()` and `str.rstrip()` remove
(CPython's `Py_UNICODE_ISSPACE`): 0x09-0x0D, 0x1C-0x1F, the space, 0x85,
0xA0, 0x1680, 0x2000-0x200A, 0x2028, 0x2029, 0x202F, 0x205F, 0x3000. -/
def pySpace (c : Char) : Bool :=
  ['\t', '\n', '\x0b', '\x0c', '\r', '\x1c', '\x1d', '\x1e', '\x1f', ' ',
   '\u0085', '\u00a0', '\u1680', '\u2000', '\u2001', '\u2002', '\u2003',
   '\u2004', '\u2005', '\u2006', '\u2007', '\u2008', '\u2009', '\u200a',
   '\u2028', '\u2029', '\u202f', '\u205f', '\u3000'].contains c

/-- The exact character set at which Python's `str.splitlines` breaks a line:
0x0A-0x0D, 0x1C-0x1E, 0x85, 0x2028, 0x2029 (`\r\n` counts as one break). -/
def pyBreak (c : Char) : Bool :=
  ['\n', '\x0b', '\x0c', '\r', '\x1c', '\x1d', '\x1e',
   '\u0085', '\u2028', '\u2029'].contains c

/-- Python's `str.strip()` (Unicode whitespace from both ends). -/
def pyStrip (s : String) : String :=
  ⟨((s.data.dropWhile pySpace).reverse.dropWhile pySpace).reverse⟩

/-- Python's `str.rstrip()` (Unicode whitespace from the right end). -/
def pyRstrip (s : String) : String :=
  ⟨(s.data.reverse.dropWhile pySpace).reverse⟩

/-- The module's `unindent(text, remove)`:
`''.join(map(lambda l: l[remove:], text.splitlines(keepends=True)))`. -/
def unindent (text : String) (remove : Nat) : String :=
  pyConcat ((splitKE text.data).map (fun l => strDrop ⟨l⟩ remove))

instance instDecEqExcept {ε α : Type} [DecidableEq ε] [DecidableEq α] :
    DecidableEq (Except ε α) := fun a b =>
  match a, b with
  | Except.ok x, Except.ok y => decidable_of_iff (x = y) (by simp)
  | Except.error x, Except.error y => decidable_of_iff (x = y) (by simp)
  | Except.ok _, Except.error _ => isFalse (fun h => by cases h)
  | Except.error _, Except.ok _ => isFalse (fun h => by cases h)

-- ===================== Data model =====================

/-- A resolved package, as produced by the external resolver
(`mach_nix.resolver.ResolvedPkg`); fields as described by the spec's data
model: name, version, root flag, and the two dependency-edge sets. -/
structure ResolvedPkg where
  name : String
  ver : String
  is_root : Bool
  build_inputs : List String
  prop_build_inputs : List String
deriving DecidableEq

/-- Modelled from the spec: the external Existing-Package Index
(`mach_nix.data.data_interface.NixpkgsDirectory`), a read-only oracle with
`exists(name)` (`exists1`), `exists(name, version)` (`exists2`),
`find_best_nixpkgs_candidate`, `get_all_candidates` (returned here directly
as the candidates' `nix_key` identifiers) and `has_multiple_candidates`. -/
structure NixpkgsDirectory where
  exists1 : String → Bool
  exists2 : String → String → Bool
  find_best_nixpkgs_candidate : String → String → String
  get_all_candidates : String → List String
  has_multiple_candidates : String → Bool

/-- The configuration fields of `OverlaysGenerator.__init__` that the
generation logic reads. -/
structure OverlaysGenerator where
  nixpkgs : NixpkgsDirectory
  disable_checks : Bool
  prefer_nixpkgs : Bool
  nixpkgs_commit : String
  nixpkgs_tarball_sha256 : String
  pypi_fetcher_commit : String
  pypi_fetcher_tarball_sha256 : String
  py_ver_nix : String

-- ===================== The generator, method by method =====================

/-- Method `_get_ref_name(self, name, ver)`. -/
def _get_ref_name (g : OverlaysGenerator) (name ver : String) : String :=
  if g.nixpkgs.exists1 name then g.nixpkgs.find_best_nixpkgs_candidate name ver
  else name

/-- Method `_needs_overlay(self, name, ver)`. -/
def _needs_overlay (g : OverlaysGenerator) (name ver : String) : Bool :=
  !(g.nixpkgs.exists2 name ver) || g.nixpkgs.has_multiple_candidates name

/-- Method `_gen_imports(self)`.  The f-string literal is written here split
at its newlines; `\x7b`/`\x7d` denote the literal braces (`{{`/`}}` in the
Python source). -/
def _gen_imports (g : OverlaysGenerator) : String :=
  unindent ("\n"
    ++ "            let" ++ "\n"
    ++ "              fetchPypiSrc = builtins.fetchTarball \x7b" ++ "\n"
    ++ "                name = \"nix-pypi-fetcher\";" ++ "\n"
    ++ "                url = \"https://github.com/DavHau/nix-pypi-fetcher/tarball/" ++ g.pypi_fetcher_commit ++ "\";" ++ "\n"
    ++ "                # Hash obtained using `nix-prefetch-url --unpack <url>`" ++ "\n"
    ++ "                sha256 = \"" ++ g.pypi_fetcher_tarball_sha256 ++ "\";" ++ "\n"
    ++ "              \x7d;" ++ "\n"
    ++ "              fetchPypi = import (fetchPypiSrc);" ++ "\n"
    ++ "              nixpkgs_src = builtins.fetchTarball \x7b" ++ "\n"
    ++ "                name = \"nixpkgs\";" ++ "\n"
    ++ "                url = \"https://github.com/nixos/nixpkgs/tarball/" ++ g.nixpkgs_commit ++ "\";" ++ "\n"
    ++ "                sha256 = \"" ++ g.nixpkgs_tarball_sha256 ++ "\";" ++ "\n"
    ++ "              \x7d;" ++ "\n"
    ++ "              pkgs = import nixpkgs_src \x7b config = \x7b\x7d; \x7d;" ++ "\n"
    ++ "              python = pkgs." ++ g.py_ver_nix ++ ";" ++ "\n"
    ++ "            ") 12

/-- Method `_gen_build_inputs(self, build_inputs_local, build_inputs_nixpkgs)`.
The two arguments are Python sets, modelled as duplicate-free lists; `sorted`
is applied to each before joining, exactly as in the source. -/
def _gen_build_inputs (build_inputs_local build_inputs_nixpkgs : List String) : String :=
  joinSep (sortStr build_inputs_local) ++ " "
    ++ joinSep ((sortStr build_inputs_nixpkgs).map (fun b => "python-self." ++ b))

/-- Method `_gen_prop_build_inputs`, textually identical to
`_gen_build_inputs` in the source. -/
def _gen_prop_build_inputs (prop_build_inputs_local prop_build_inputs_nixpkgs : List String) : String :=
  joinSep (sortStr prop_build_inputs_local) ++ " "
    ++ joinSep ((sortStr prop_build_inputs_nixpkgs).map (fun b => "python-self." ++ b))

/-- Method `_gen_overrideAttrs(self, name, ver, nix_name, build_inputs_str,
prop_build_inputs_str)`.  Python's truthiness test `if build_inputs_str:` is
the inequality with the empty string. -/
def _gen_overrideAttrs (g : OverlaysGenerator)
    (name ver nix_name build_inputs_str prop_build_inputs_str : String) : String :=
  let out := "\n"
    ++ "            " ++ nix_name ++ " = python-super." ++ nix_name ++ ".overrideAttrs ( oldAttrs: \x7b" ++ "\n"
    ++ "              name = \"" ++ name ++ "-" ++ ver ++ "\";" ++ "\n"
    ++ "              src = fetchPypi \"" ++ name ++ "\" \"" ++ ver ++ "\";"
  let out := if build_inputs_str ≠ "" then out ++ ("\n"
    ++ "              buildInputs = oldAttrs.buildInputs ++ [ " ++ build_inputs_str ++ " ];")
    else out
  let out := if prop_build_inputs_str ≠ "" then out ++ ("\n"
    ++ "              propagatedBuildInputs = oldAttrs.propagatedBuildInputs ++ [ " ++ prop_build_inputs_str ++ " ];")
    else out
  let out := if g.disable_checks then out ++ ("\n"
    ++ "              doCheck = false;" ++ "\n"
    ++ "              doInstallCheck = false;")
    else out
  unindent (out ++ "\n" ++ "            \x7d);" ++ "\n") 4

/-- Method `_gen_builPythonPackage(self, name, ver, build_inputs_str,
prop_build_inputs_str)`.  Here the source tests `build_inputs_str.strip()`. -/
def _gen_builPythonPackage (g : OverlaysGenerator)
    (name ver build_inputs_str prop_build_inputs_str : String) : String :=
  let out := "\n"
    ++ "            " ++ name ++ " = python.pkgs.buildPythonPackage \x7b" ++ "\n"
    ++ "              name = \"" ++ name ++ "-" ++ ver ++ "\";" ++ "\n"
    ++ "              src = fetchPypi \"" ++ name ++ "\" \"" ++ ver ++ "\";"
  let out := if pyStrip build_inputs_str ≠ "" then out ++ ("\n"
    ++ "              buildInputs = [ " ++ build_inputs_str ++ " ];")
    else out
  let out := if pyStrip prop_build_inputs_str ≠ "" then out ++ ("\n"
    ++ "              propagatedBuildInputs = [ " ++ prop_build_inputs_str ++ " ];")
    else out
  let out := if g.disable_checks then out ++ ("\n"
    ++ "              doCheck = false;" ++ "\n"
    ++ "              doInstallCheck = false;")
    else out
  unindent (out ++ "\n" ++ "            \x7d;" ++ "\n") 4

/-- Method `_gen_unify_nixpkgs_keys(self, master_key, nixpkgs_keys)`.  The
source accumulates `out += f"        {key} = {master_key};\n"` over the key
list; the accumulation is written as structural recursion (string
concatenation is associative, so the value is identical). -/
def _gen_unify_nixpkgs_keys (master_key : String) : List String → String
  | [] => ""
  | key :: rest =>
    ("        " ++ key ++ " = " ++ master_key ++ ";" ++ "\n")
      ++ _gen_unify_nixpkgs_keys master_key rest

/-- Lookup in the ordered dict `pkgs` (`pkgs[b]`, returning `none` where
Python would raise `KeyError`). -/
def dictGet? (pkgs : List (String × ResolvedPkg)) (k : String) : Option ResolvedPkg :=
  (pkgs.find? (fun kv => kv.1 == k)).map (fun kv => kv.2)

/-- The list comprehension
`[self._get_ref_name(b, pkgs[b].ver) for b in inputs]` of `_gen_overlays`;
a failing `pkgs[b]` lookup (Python `KeyError: b`) is `Except.error b`. -/
def _resolve_input_refs (g : OverlaysGenerator) (pkgs : List (String × ResolvedPkg)) :
    List String → Except String (List String)
  | [] => Except.ok []
  | b :: rest =>
    match dictGet? pkgs b with
    | none => Except.error b
    | some q =>
      match _resolve_input_refs g pkgs rest with
      | Except.error m => Except.error m
      | Except.ok tl => Except.ok (_get_ref_name g b q.ver :: tl)

/-- The set comprehension `{b for b in refs if b in overlay_keys}`
(`build_inputs_local` / `prop_build_inputs_local` of `_gen_overlays`). -/
def inputsLocal (overlay_keys refs : List String) : List String :=
  (refs.filter (fun b => decide (b ∈ overlay_keys))).dedup

/-- The set difference `set(refs) - inputsLocal` (`build_inputs_nixpkgs` /
`prop_build_inputs_nixpkgs` of `_gen_overlays`). -/
def inputsFromIndex (overlay_keys refs : List String) : List String :=
  refs.dedup.filter (fun b => decide (b ∉ inputsLocal overlay_keys refs))

/-- One iteration of the `for pkg in pkgs.values():` loop body of
`_gen_overlays`: the string appended to `out` for `pkg`, or the raised
`KeyError`.  A package whose name is not in `overlay_keys` is skipped
(`continue`), contributing the empty string. -/
def _gen_overlay_pkg (g : OverlaysGenerator) (pkgs : List (String × ResolvedPkg))
    (overlay_keys : List String) (pkg : ResolvedPkg) : Except String String :=
  if pkg.name ∈ overlay_keys then
    match _resolve_input_refs g pkgs pkg.build_inputs with
    | Except.error m => Except.error m
    | Except.ok _build_inputs =>
      match _resolve_input_refs g pkgs pkg.prop_build_inputs with
      | Except.error m => Except.error m
      | Except.ok _prop_build_inputs =>
        let build_inputs_str := pyStrip (_gen_build_inputs
          (inputsLocal overlay_keys _build_inputs) (inputsFromIndex overlay_keys _build_inputs))
        let prop_build_inputs_str := pyStrip (_gen_prop_build_inputs
          (inputsLocal overlay_keys _prop_build_inputs) (inputsFromIndex overlay_keys _prop_build_inputs))
        if g.nixpkgs.exists1 pkg.name then
          let nix_name := g.nixpkgs.find_best_nixpkgs_candidate pkg.name pkg.ver
          let master_key := _get_ref_name g pkg.name pkg.ver
          let other_names := (g.nixpkgs.get_all_candidates pkg.name).filter
            (fun k => decide (k ≠ master_key))
          Except.ok (_gen_overrideAttrs g pkg.name pkg.ver nix_name build_inputs_str prop_build_inputs_str
            ++ _gen_unify_nixpkgs_keys master_key (sortStr other_names))
        else
          Except.ok (_gen_builPythonPackage g pkg.name pkg.ver build_inputs_str prop_build_inputs_str)
  else Except.ok ("")

/-- The whole `for pkg in pkgs.values():` loop of `_gen_overlays`,
concatenating the per-package contributions; the first raised `KeyError`
aborts the loop, as in Python. -/
def genOverlayBlocks (g : OverlaysGenerator) (pkgs : List (String × ResolvedPkg))
    (overlay_keys : List String) : List ResolvedPkg → Except String String
  | [] => Except.ok ("")
  | p :: rest =>
    match _gen_overlay_pkg g pkgs overlay_keys p with
    | Except.error m => Except.error m
    | Except.ok blk =>
      match genOverlayBlocks g pkgs overlay_keys rest with
      | Except.error m => Except.error m
      | Except.ok out => Except.ok (blk ++ out)

/-- Method `_gen_overlays(self, pkgs, overlay_keys)`: header boilerplate,
the per-package loop, and the closing boilerplate. -/
def _gen_overlays (g : OverlaysGenerator) (pkgs : List (String × ResolvedPkg))
    (overlay_keys : List String) : Except String String :=
  match genOverlayBlocks g pkgs overlay_keys (pkgs.map (fun kv => kv.2)) with
  | Except.error m => Except.error m
  | Except.ok body =>
    Except.ok (unindent ("\n"
        ++ "            overlay = self: super: \x7b" ++ "\n"
        ++ "              " ++ g.py_ver_nix ++ " = super." ++ g.py_ver_nix ++ ".override \x7b" ++ "\n"
        ++ "                packageOverrides = python-self: python-super: rec \x7b" ++ "\n"
        ++ "          ") 10
      ++ body
      ++ unindent ("\n"
        ++ "                \x7d;" ++ "\n"
        ++ "              \x7d;" ++ "\n"
        ++ "            \x7d;" ++ "\n"
        ++ "          ") 10)

/-- The set comprehension
`{p.name for p in pkgs.values() if self._needs_overlay(p.name, p.ver)}`
of `_gen_python_env`. -/
def overlayKeysOf (g : OverlaysGenerator) (pkgs : List (String × ResolvedPkg)) : List String :=
  (((pkgs.map (fun kv => kv.2)).filter
      (fun p => _needs_overlay g p.name p.ver)).map (fun p => p.name)).dedup

/-- The generator expression building `pkg_names` in `_gen_python_env`:
`"".join(f"{self._get_ref_name(name, pkgs[name].ver)}\n{' ' * 14}"
for (name, pkg) in pkgs.items() if pkg.is_root)`.  Since dict keys are
unique, `pkgs[name].ver` for an item `(name, pkg)` is `pkg.ver`. -/
def pkgNamesOf (g : OverlaysGenerator) (pkgs : List (String × ResolvedPkg)) : String :=
  pyConcat ((pkgs.filter (fun kv => kv.2.is_root)).map
    (fun kv => _get_ref_name g kv.1 kv.2.ver ++ "\n" ++ "              "))

/-- The `python_with_packages` f-string of `_gen_python_env`, already passed
through `unindent(..., 12)`. -/
def envExprOf (g : OverlaysGenerator) (pkg_names : String) : String :=
  unindent ("\n"
    ++ "            in" ++ "\n"
    ++ "            " ++ "\n"
    ++ "            with import nixpkgs_src \x7b overlays = [ overlay ]; \x7d;" ++ "\n"
    ++ "            " ++ "\n"
    ++ "            " ++ g.py_ver_nix ++ ".withPackages (ps: with ps; [" ++ "\n"
    ++ "              " ++ pyRstrip pkg_names ++ "\n"
    ++ "            ])" ++ "\n"
    ++ "            ") 12

/-- Method `_gen_python_env(self, pkgs)`. -/
def _gen_python_env (g : OverlaysGenerator) (pkgs : List (String × ResolvedPkg)) :
    Except String String :=
  let overlay_keys := overlayKeysOf g pkgs
  match _gen_overlays g pkgs overlay_keys with
  | Except.error m => Except.error m
  | Except.ok ov => Except.ok (_gen_imports g ++ ov ++ envExprOf g (pkgNamesOf g pkgs))

/-- One insertion into a Python (ordered) dict: an existing key keeps its
position but its value is replaced; a new key is appended. -/
def odInsert (acc : List (String × ResolvedPkg)) (kv : String × ResolvedPkg) :
    List (String × ResolvedPkg) :=
  if acc.any (fun p => p.1 == kv.1) then
    acc.map (fun p => if p.1 == kv.1 then (p.1, kv.2) else p)
  else acc ++ [kv]

/-- Python's `OrderedDict(pairs)` built by successive insertion. -/
def toOrderedDict (pairs : List (String × ResolvedPkg)) : List (String × ResolvedPkg) :=
  pairs.foldl odInsert []

/-- The sort key of `generate`: `sorted(pairs, key=lambda x: x[1].name)`. -/
def pairRel (a b : String × ResolvedPkg) : Prop := pyLe a.2.name b.2.name

instance : DecidableRel pairRel := fun a b => by unfold pairRel; infer_instance

/-- The pair list `sorted(((p.name, p) for p in pkgs), key=lambda x: x[1].name)`
of `generate` (`List.insertionSort` is a stable sort, like Python's). -/
def sortedPkgPairs (pkgs : List ResolvedPkg) : List (String × ResolvedPkg) :=
  List.insertionSort pairRel (pkgs.map (fun p => (p.name, p)))

/-- The `OrderedDict` that `generate` builds from the resolved package list. -/
def pkgDict (pkgs : List ResolvedPkg) : List (String × ResolvedPkg) :=
  toOrderedDict (sortedPkgPairs pkgs)

/-- Method `generate(self, reqs)` after the external resolver call: the
transformation applied to the resolved package list
(`pkgs = OrderedDict(sorted(...)); return self._gen_python_env(pkgs)`). -/
def generate (g : OverlaysGenerator) (pkgs : List ResolvedPkg) : Except String String :=
  _gen_python_env g (pkgDict pkgs)

-- ===================== Observation helpers for the claims =====================

/-- The string `s` holds no newline character. -/
def noNl (s : String) : Prop := '\n' ∉ s.data

instance : ∀ s, Decidable (noNl s) := fun s => by unfold noNl; infer_instance

/-- The string `s` holds no character at which Python's `splitlines` breaks a
line; on text built from such strings and explicit newlines, the
newline-only `splitKE` computes `splitlines(keepends=True)` exactly. -/
def noBrk (s : String) : Prop := ∀ c ∈ s.data, pyBreak c = false

instance : ∀ s, Decidable (noBrk s) := fun s => by unfold noBrk; infer_instance

/-- The line `line` (with its terminating newline) is one of the lines of
`s`, in the sense of `splitlines`. -/
def hasLine (s line : String) : Prop := (line ++ "\n").data ∈ splitKE s.data

instance : ∀ s l, Decidable (hasLine s l) := fun s l => by unfold hasLine; infer_instance

/-- The string `pat` occurs contiguously inside `s`. -/
def occursIn (pat s : String) : Prop := pat.data <:+: s.data

instance : ∀ p s, Decidable (occursIn p s) := fun p s => by unfold occursIn; infer_instance

/-- Whether an `Except`-valued generation result succeeded and its output has
the given line. -/
def okHasLine (e : Except String String) (line : String) : Prop :=
  match e with
  | Except.ok s => hasLine s line
  | Except.error _ => False

instance : ∀ e l, Decidable (okHasLine e l) := fun e l => by
  unfold okHasLine; cases e <;> infer_instance

/-- The post-`unindent` text of each line shape of the generated blocks.
Override-block head line (`_gen_overrideAttrs`, keyed by `nix_name`). -/
def ovHeadLine (nix_name : String) : String :=
  "        " ++ nix_name ++ " = python-super." ++ nix_name ++ ".overrideAttrs ( oldAttrs: \x7b"

/-- Name-plus-version label line shared by both block synthesizers. -/
def nameLine (name ver : String) : String :=
  "          name = \"" ++ name ++ "-" ++ ver ++ "\";"

/-- Source-fetch directive line shared by both block synthesizers. -/
def srcLine (name ver : String) : String :=
  "          src = fetchPypi \"" ++ name ++ "\" \"" ++ ver ++ "\";"

/-- Build-input line of an override block (appends to the base recipe). -/
def ovBuildLine (bi : String) : String :=
  "          buildInputs = oldAttrs.buildInputs ++ [ " ++ bi ++ " ];"

/-- Propagated-build-input line of an override block. -/
def ovPropLine (pbi : String) : String :=
  "          propagatedBuildInputs = oldAttrs.propagatedBuildInputs ++ [ " ++ pbi ++ " ];"

/-- Test-disabling directive line. -/
def doCheckLine : String := "          doCheck = false;"

/-- Install-check-disabling directive line. -/
def doInstallCheckLine : String := "          doInstallCheck = false;"

/-- Closing line of an override block. -/
def ovCloseLine : String := "        \x7d);"

/-- Head line of a fresh `buildPythonPackage` block. -/
def bpHeadLine (name : String) : String :=
  "        " ++ name ++ " = python.pkgs.buildPythonPackage \x7b"

/-- Build-input line of a fresh block (no base recipe to append to). -/
def bpBuildLine (bi : String) : String :=
  "          buildInputs = [ " ++ bi ++ " ];"

/-- Propagated-build-input line of a fresh block. -/
def bpPropLine (pbi : String) : String :=
  "          propagatedBuildInputs = [ " ++ pbi ++ " ];"

/-- Closing line of a fresh block. -/
def bpCloseLine : String := "        \x7d;"

/-- One alias line of the key-unification section. -/
def aliasLine (key master : String) : String :=
  "        " ++ key ++ " = " ++ master ++ ";"

/-- Line list of an override block, as a function of the generator
configuration and the five string arguments. -/
def ovBodies (g : OverlaysGenerator) (name ver nix_name bi pbi : String) : List String :=
  [ovHeadLine nix_name, nameLine name ver, srcLine name ver]
    ++ (if bi ≠ "" then [ovBuildLine bi] else [])
    ++ (if pbi ≠ "" then [ovPropLine pbi] else [])
    ++ (if g.disable_checks then [doCheckLine, doInstallCheckLine] else [])
    ++ [ovCloseLine]

/-- Line list of a fresh block. -/
def bpBodies (g : OverlaysGenerator) (name ver bi pbi : String) : List String :=
  [bpHeadLine name, nameLine name ver, srcLine name ver]
    ++ (if pyStrip bi ≠ "" then [bpBuildLine bi] else [])
    ++ (if pyStrip pbi ≠ "" then [bpPropLine pbi] else [])
    ++ (if g.disable_checks then [doCheckLine, doInstallCheckLine] else [])
    ++ [bpCloseLine]

/-- Modelled from the spec: the well-formedness contract of the external
Existing-Package Index ("`get_all_candidates(name)` → ordered set of
identifiers"; existence and multiplicity answers agree with the candidate
list; the chosen canonical identifier is one of the candidates). -/
structure IndexWF (idx : NixpkgsDirectory) : Prop where
  mult_iff : ∀ n, idx.has_multiple_candidates n = true ↔ 2 ≤ (idx.get_all_candidates n).length
  exists1_iff : ∀ n, idx.exists1 n = true ↔ idx.get_all_candidates n ≠ []
  find_best_mem : ∀ n v, idx.exists1 n = true →
    idx.find_best_nixpkgs_candidate n v ∈ idx.get_all_candidates n
  candidates_nodup : ∀ n, (idx.get_all_candidates n).Nodup

/-- The spec's data-model invariant on a resolved set: every name in either
input set of any package is itself the name of a resolved package. -/
def depsClosed (pkgs : List ResolvedPkg) : Prop :=
  ∀ p ∈ pkgs, ∀ b ∈ p.build_inputs ++ p.prop_build_inputs, ∃ q ∈ pkgs, q.name = b

/-- The reference the generator emits for the input name `b` of a package:
`_get_ref_name(b, pkgs[b].ver)` when `b` is a key of the dict (the only case
the generator completes on), and `b` itself otherwise. -/
def refName (g : OverlaysGenerator) (pkgs : List (String × ResolvedPkg)) (b : String) : String :=
  match dictGet? pkgs b with
  | some q => _get_ref_name g b q.ver
  | none => b

-- ===================== Concrete fixtures for the scenarios =====================

/-- An index that knows no package at all. -/
def idxEmpty : NixpkgsDirectory :=
  { exists1 := fun _ => false, exists2 := fun _ _ => false,
    find_best_nixpkgs_candidate := fun n _ => n,
    get_all_candidates := fun _ => [], has_multiple_candidates := fun _ => false }

/-- An index in which every name exists at every version, with itself as the
single unambiguous candidate. -/
def idxAll : NixpkgsDirectory :=
  { exists1 := fun _ => true, exists2 := fun _ _ => true,
    find_best_nixpkgs_candidate := fun n _ => n,
    get_all_candidates := fun n => [n], has_multiple_candidates := fun _ => false }

/-- The index of the spec's scenario (b): name B exists at the requested
version with two colliding identifiers idA and idB, canonical idA. -/
def idxB : NixpkgsDirectory :=
  { exists1 := fun n => n == "B", exists2 := fun n _ => n == "B",
    find_best_nixpkgs_candidate := fun n _ => if n == "B" then "idA" else n,
    get_all_candidates := fun n => if n == "B" then ["idA", "idB"] else [],
    has_multiple_candidates := fun n => n == "B" }

/-- The index of the spec's scenario (d): F exists unambiguously, nothing
else does. -/
def idxD : NixpkgsDirectory :=
  { exists1 := fun n => n == "F", exists2 := fun n _ => n == "F",
    find_best_nixpkgs_candidate := fun n _ => n,
    get_all_candidates := fun n => if n == "F" then ["F"] else [],
    has_multiple_candidates := fun _ => false }

/-- A generator configuration over a given index. -/
def mkGen (idx : NixpkgsDirectory) (disable : Bool) : OverlaysGenerator :=
  { nixpkgs := idx, disable_checks := disable, prefer_nixpkgs := true,
    nixpkgs_commit := "0000", nixpkgs_tarball_sha256 := "1111",
    pypi_fetcher_commit := "2222", pypi_fetcher_tarball_sha256 := "3333",
    py_ver_nix := "python37" }

/-- Index for the C8 counterexample: every name exists (`exists(name)` is
true, so the override path is taken and the name is its own canonical
candidate) but no exact version matches, so every package needs an
overlay. -/
def idxNl : NixpkgsDirectory :=
  { exists1 := fun _ => true, exists2 := fun _ _ => false,
    find_best_nixpkgs_candidate := fun n _ => n,
    get_all_candidates := fun n => [n], has_multiple_candidates := fun _ => false }

/-- A resolved package whose name carries a newline. -/
def pkgNl : ResolvedPkg :=
  { name := "A\nBCDEFG", ver := "1.0", is_root := true,
    build_inputs := [], prop_build_inputs := [] }

/-- Scenario (a) package: A at 1.0, root, no inputs. -/
def pkgA : ResolvedPkg :=
  { name := "A", ver := "1.0", is_root := true, build_inputs := [], prop_build_inputs := [] }

/-- Scenario (b) package: B at 2.0, root. -/
def pkgB : ResolvedPkg :=
  { name := "B", ver := "2.0", is_root := true, build_inputs := [], prop_build_inputs := [] }

/-- Scenario (d) packages: E at 1.0 root with build input F; F at 1.0. -/
def pkgE : ResolvedPkg :=
  { name := "E", ver := "1.0", is_root := true, build_inputs := ["F"], prop_build_inputs := [] }

/-- Scenario (d) dependency package F. -/
def pkgF : ResolvedPkg :=
  { name := "F", ver := "1.0", is_root := false, build_inputs := [], prop_build_inputs := [] }

/-- Scenario (e) package: G at 1.0 root with build input H, H unresolved. -/
def pkgG : ResolvedPkg :=
  { name := "G", ver := "1.0", is_root := true, build_inputs := ["H"], prop_build_inputs := [] }

/-- A package whose name embeds newlines and the check-disabling directive
text, demonstrating that the generator performs no escaping. -/
def pkgEvil : ResolvedPkg :=
  { name := "x\n              doCheck = false;\n              doInstallCheck = false;\n              y",
    ver := "1.0", is_root := true, build_inputs := [], prop_build_inputs := [] }

/-- Two packages sharing one name at different versions (an input the
resolver contract rules out, used to probe order sensitivity). -/
def pkgDup1 : ResolvedPkg :=
  { name := "a", ver := "1", is_root := true, build_inputs := [], prop_build_inputs := [] }

/-- The second same-named package. -/
def pkgDup2 : ResolvedPkg :=
  { name := "a", ver := "2", is_root := true, build_inputs := [], prop_build_inputs := [] }

-- ===================== String machinery lemmas =====================

theorem str_mk_data (s : String) : (⟨s.data⟩ : String) = s := by
  cases s
  rfl

theorem str_data_mk (l : List Char) : (⟨l⟩ : String).data = l := rfl

theorem str_assoc (a b c : String) : a ++ b ++ c = a ++ (b ++ c) := by
  apply String.ext
  simp [String.data_append, List.append_assoc]

theorem str_nil_append (s : String) : "" ++ s = s := by
  apply String.ext
  simp [String.data_append]

theorem str_append_nil (s : String) : s ++ "" = s := by
  apply String.ext
  simp [String.data_append]

theorem pyConcat_cons (x : String) (xs : List String) :
    pyConcat (x :: xs) = x ++ pyConcat xs := rfl

theorem pyConcat_append (a b : List String) :
    pyConcat (a ++ b) = pyConcat a ++ pyConcat b := by
  induction a with
  | nil => simp [pyConcat, str_nil_append]
  | cons x xs ih => simp [pyConcat, ih, str_assoc]

theorem noNl_append_iff (a b : String) : noNl (a ++ b) ↔ noNl a ∧ noNl b := by
  unfold noNl
  simp [String.data_append, not_or]

theorem splitKE_cons_nl (r : List Char) : splitKE ('\n' :: r) = ['\n'] :: splitKE r := by
  simp [splitKE]

theorem splitKE_ne_nil (l : List Char) (h : l ≠ []) : splitKE l ≠ [] := by
  cases l with
  | nil => exact absurd rfl h
  | cons c r =>
    unfold splitKE
    by_cases hc : c = '\n'
    · simp [hc]
    · simp only [if_neg hc]
      cases splitKE r <;> simp

theorem splitKE_cons_ne (c : Char) (hc : c ≠ '\n') (r : List Char) :
    splitKE (c :: r) = match splitKE r with
      | [] => [[c]]
      | l :: ls => (c :: l) :: ls := by
  conv_lhs => rw [splitKE]
  rw [if_neg hc]

theorem splitKE_line (l : List Char) (h : '\n' ∉ l) (b : List Char) :
    splitKE (l ++ '\n' :: b) = (l ++ ['\n']) :: splitKE b := by
  induction l with
  | nil => simp [splitKE_cons_nl]
  | cons c r ih =>
    have hc : c ≠ '\n' := fun hc => h (hc ▸ List.mem_cons_self c r)
    have hr : '\n' ∉ r := fun hr => h (List.mem_cons_of_mem c hr)
    rw [List.cons_append, splitKE_cons_ne c hc, ih hr]
    exact rfl

theorem splitKE_noNl (l : List Char) (h : '\n' ∉ l) (hne : l ≠ []) : splitKE l = [l] := by
  induction l with
  | nil => exact absurd rfl hne
  | cons c r ih =>
    have hc : c ≠ '\n' := fun hc => h (hc ▸ List.mem_cons_self c r)
    have hr : '\n' ∉ r := fun hr => h (List.mem_cons_of_mem c hr)
    cases r with
    | nil => simp [splitKE, if_neg hc]
    | cons c2 r2 =>
      rw [splitKE_cons_ne c hc, ih hr (by simp)]

theorem unindent_empty (k : Nat) : unindent "" k = "" := rfl

theorem unindent_nl (k : Nat) (hk : 0 < k) (s : String) :
    unindent ("\n" ++ s) k = unindent s k := by
  have h1 : ("\n" ++ s).data = '\n' :: s.data := by
    rw [String.data_append]
    try exact rfl
  unfold unindent
  rw [h1, splitKE_cons_nl, List.map_cons, pyConcat_cons]
  have h2 : strDrop ⟨['\n']⟩ k = "" := by
    unfold strDrop
    rw [str_data_mk, List.drop_eq_nil_of_le (by simpa using hk)]
  rw [h2, str_nil_append]

theorem unindent_cons_line (k : Nat) (l s : String) (hl : noNl l) (hk : k ≤ l.data.length) :
    unindent (l ++ ("\n" ++ s)) k = strDrop l k ++ ("\n" ++ unindent s k) := by
  have h1 : (l ++ ("\n" ++ s)).data = l.data ++ '\n' :: s.data := by
    rw [String.data_append, String.data_append]
    try exact rfl
  unfold unindent
  rw [h1, splitKE_line l.data hl, List.map_cons, pyConcat_cons]
  apply String.ext
  simp only [String.data_append, str_data_mk, strDrop]
  rw [List.drop_append_of_le_length hk]
  simp [List.append_assoc]

theorem unindent_noNl (k : Nat) (l : String) (h : noNl l) : unindent l k = strDrop l k := by
  by_cases hne : l.data = []
  · have h0 : strDrop l k = "" := by
      apply String.ext
      unfold strDrop
      rw [str_data_mk, hne, List.drop_nil]
    rw [h0]
    unfold unindent
    rw [hne]
    rfl
  · unfold unindent
    rw [splitKE_noNl l.data h hne, List.map_cons, List.map_nil, pyConcat_cons]
    rw [str_mk_data]
    exact str_append_nil _

theorem strDrop_append (k : Nat) (a b : String) (h : k ≤ a.data.length) :
    strDrop (a ++ b) k = strDrop a k ++ b := by
  apply String.ext
  unfold strDrop
  simp only [String.data_append, str_data_mk]
  rw [List.drop_append_of_le_length h]

theorem unindent_lines (k : Nat) (hk : 0 < k) :
    ∀ ls : List String, (∀ l ∈ ls, noNl l ∧ k ≤ l.data.length) →
      unindent (pyConcat (ls.map (fun l => "\n" ++ l)) ++ "\n") k
        = pyConcat (ls.map (fun l => strDrop l k ++ "\n")) := by
  intro ls
  induction ls with
  | nil =>
    intro _
    rw [List.map_nil]
    show unindent (pyConcat [] ++ "\n") k = pyConcat []
    show unindent ("" ++ "\n") k = ""
    rw [str_nil_append]
    have : ("\n" : String) = "\n" ++ "" := (str_append_nil _).symm
    rw [this, unindent_nl k hk, unindent_empty]
  | cons l ls ih =>
    intro hall
    have hl := hall l (List.mem_cons_self l ls)
    have hrest : ∀ x ∈ ls, noNl x ∧ k ≤ x.data.length :=
      fun x hx => hall x (List.mem_cons_of_mem l hx)
    obtain ⟨T0, hT0⟩ : ∃ T0, pyConcat (ls.map (fun l => "\n" ++ l)) ++ "\n" = "\n" ++ T0 := by
      cases ls with
      | nil => exact ⟨"", by rw [List.map_nil]; show "" ++ "\n" = "\n" ++ ""; rw [str_nil_append, str_append_nil]⟩
      | cons y ys =>
        refine ⟨y ++ (pyConcat (ys.map (fun l => "\n" ++ l)) ++ "\n"), ?_⟩
        rw [List.map_cons, pyConcat_cons, str_assoc, str_assoc]
    have hT : unindent T0 k = pyConcat (ls.map (fun l => strDrop l k ++ "\n")) := by
      have hih := ih hrest
      rw [hT0, unindent_nl k hk] at hih
      exact hih
    rw [List.map_cons, pyConcat_cons, str_assoc, hT0, str_assoc, unindent_nl k hk,
      unindent_cons_line k l T0 hl.1 hl.2, hT, List.map_cons, pyConcat_cons]
    exact (str_assoc _ _ _).symm

theorem splitKE_concatLines (ls : List String) (h : ∀ l ∈ ls, noNl l) :
    splitKE (pyConcat (ls.map (fun l => l ++ "\n"))).data = ls.map (fun l => (l ++ "\n").data) := by
  induction ls with
  | nil => rfl
  | cons l rest ih =>
    have hl := h l (List.mem_cons_self l rest)
    have hrest : ∀ x ∈ rest, noNl x := fun x hx => h x (List.mem_cons_of_mem l hx)
    rw [List.map_cons, pyConcat_cons]
    have hd : ((l ++ "\n") ++ pyConcat (rest.map (fun l => l ++ "\n"))).data
        = l.data ++ '\n' :: (pyConcat (rest.map (fun l => l ++ "\n"))).data := by
      simp [String.data_append, List.append_assoc]
    rw [hd, splitKE_line l.data hl, ih hrest, List.map_cons]
    rw [String.data_append]

theorem hasLine_concat_iff (ls : List String) (line : String) (h : ∀ l ∈ ls, noNl l) :
    hasLine (pyConcat (ls.map (fun l => l ++ "\n"))) line ↔ line ∈ ls := by
  unfold hasLine
  rw [splitKE_concatLines ls h, List.mem_map]
  constructor
  · rintro ⟨b, hb, heq⟩
    have : b = line := by
      apply String.ext
      have := congrArg List.dropLast heq
      simpa [String.data_append, List.dropLast_concat] using this
    exact this ▸ hb
  · intro hmem
    exact ⟨line, hmem, rfl⟩

-- ===================== Order and sorting lemmas =====================

theorem strLeb_cons_iff (a b : Char) (as bs : List Char) :
    strLeb (a :: as) (b :: bs) = true ↔ a < b ∨ (a = b ∧ strLeb as bs = true) := by
  by_cases h1 : a < b
  · simp [strLeb, h1]
  · by_cases h2 : a = b
    · simp [strLeb, h1, h2]
    · simp [strLeb, h1, h2]

theorem strLeb_total : ∀ a b : List Char, strLeb a b = true ∨ strLeb b a = true
  | [], _ => Or.inl rfl
  | _ :: _, [] => Or.inr rfl
  | a :: as, b :: bs => by
    rcases lt_trichotomy a b with h | h | h
    · exact Or.inl ((strLeb_cons_iff a b as bs).mpr (Or.inl h))
    · subst h
      rcases strLeb_total as bs with ih | ih
      · exact Or.inl ((strLeb_cons_iff a a as bs).mpr (Or.inr ⟨rfl, ih⟩))
      · exact Or.inr ((strLeb_cons_iff a a bs as).mpr (Or.inr ⟨rfl, ih⟩))
    · exact Or.inr ((strLeb_cons_iff b a bs as).mpr (Or.inl h))

theorem strLeb_trans : ∀ a b c : List Char,
    strLeb a b = true → strLeb b c = true → strLeb a c = true
  | [], _, _, _, _ => rfl
  | _ :: _, [], _, h, _ => absurd h (by simp [strLeb])
  | _ :: _, _ :: _, [], _, h => absurd h (by simp [strLeb])
  | a :: as, b :: bs, c :: cs, hab, hbc => by
    rcases (strLeb_cons_iff a b as bs).mp hab with h1 | ⟨h1, h1r⟩
    · rcases (strLeb_cons_iff b c bs cs).mp hbc with h2 | ⟨h2, h2r⟩
      · exact (strLeb_cons_iff a c as cs).mpr (Or.inl (lt_trans h1 h2))
      · exact (strLeb_cons_iff a c as cs).mpr (Or.inl (h2 ▸ h1))
    · subst h1
      rcases (strLeb_cons_iff a c bs cs).mp hbc with h2 | ⟨h2, h2r⟩
      · exact (strLeb_cons_iff a c as cs).mpr (Or.inl h2)
      · exact (strLeb_cons_iff a c as cs).mpr
          (Or.inr ⟨h2, strLeb_trans as bs cs h1r h2r⟩)

theorem strLeb_antisymm : ∀ a b : List Char,
    strLeb a b = true → strLeb b a = true → a = b
  | [], [], _, _ => rfl
  | [], _ :: _, _, h => absurd h (by simp [strLeb])
  | _ :: _, [], h, _ => absurd h (by simp [strLeb])
  | a :: as, b :: bs, hab, hba => by
    rcases (strLeb_cons_iff a b as bs).mp hab with h1 | ⟨h1, h1r⟩
    · rcases (strLeb_cons_iff b a bs as).mp hba with h2 | ⟨h2, h2r⟩
      · exact absurd (lt_trans h1 h2) (lt_irrefl _)
      · subst h2
        exact absurd h1 (lt_irrefl _)
    · subst h1
      rcases (strLeb_cons_iff a a bs as).mp hba with h2 | ⟨h2, h2r⟩
      · exact absurd h2 (lt_irrefl _)
      · rw [strLeb_antisymm as bs h1r h2r]

theorem pyLe_total (a b : String) : pyLe a b ∨ pyLe b a := strLeb_total a.data b.data

theorem pyLe_trans {a b c : String} : pyLe a b → pyLe b c → pyLe a c :=
  strLeb_trans a.data b.data c.data

theorem pyLe_antisymm {a b : String} (h1 : pyLe a b) (h2 : pyLe b a) : a = b :=
  String.ext (strLeb_antisymm a.data b.data h1 h2)

instance : IsTotal String pyLe := ⟨pyLe_total⟩

instance : IsTrans String pyLe := ⟨fun _ _ _ => pyLe_trans⟩

instance : IsTotal (String × ResolvedPkg) pairRel := ⟨fun a b => pyLe_total a.2.name b.2.name⟩

instance : IsTrans (String × ResolvedPkg) pairRel := ⟨fun _ _ _ => pyLe_trans⟩

theorem sortStr_perm (l : List String) : (sortStr l).Perm l := List.perm_insertionSort pyLe l

theorem sortStr_sorted (l : List String) : (sortStr l).Sorted pyLe :=
  List.sorted_insertionSort pyLe l

theorem mem_sortStr {x : String} {l : List String} : x ∈ sortStr l ↔ x ∈ l :=
  List.mem_insertionSort pyLe

theorem sortStr_nodup {l : List String} (h : l.Nodup) : (sortStr l).Nodup :=
  (sortStr_perm l).nodup_iff.mpr h

-- ===================== Dict and key-set lemmas =====================

theorem toOrderedDict_go (l : List (String × ResolvedPkg)) :
    ∀ acc, ((acc ++ l).map Prod.fst).Nodup → List.foldl odInsert acc l = acc ++ l := by
  induction l with
  | nil => intro acc _; simp
  | cons kv rest ih =>
    intro acc h
    have hnodup := h
    rw [List.map_append, List.nodup_append] at hnodup
    have hnotin : ¬ (acc.any (fun p => p.1 == kv.1) = true) := by
      rw [List.any_eq_true]
      rintro ⟨x, hx, hbeq⟩
      have hx1 : x.1 = kv.1 := by simpa using hbeq
      exact hnodup.2.2 (List.mem_map_of_mem Prod.fst hx)
        (by rw [hx1]; exact List.mem_map_of_mem Prod.fst (List.mem_cons_self kv rest))
    rw [List.foldl_cons]
    have hins : odInsert acc kv = acc ++ [kv] := by
      unfold odInsert
      rw [if_neg hnotin]
    rw [hins]
    have := ih (acc ++ [kv]) (by simpa using h)
    simpa using this

theorem toOrderedDict_eq (l : List (String × ResolvedPkg)) (h : (l.map Prod.fst).Nodup) :
    toOrderedDict l = l := by
  have := toOrderedDict_go l [] (by simpa using h)
  simpa using this

theorem sortedPkgPairs_perm (pkgs : List ResolvedPkg) :
    (sortedPkgPairs pkgs).Perm (pkgs.map (fun p => (p.name, p))) := by
  unfold sortedPkgPairs
  exact List.perm_insertionSort pairRel _

theorem sortedPkgPairs_sorted (pkgs : List ResolvedPkg) :
    (sortedPkgPairs pkgs).Sorted pairRel := by
  unfold sortedPkgPairs
  exact List.sorted_insertionSort pairRel _

theorem mem_sortedPkgPairs {pkgs : List ResolvedPkg} {kv : String × ResolvedPkg} :
    kv ∈ sortedPkgPairs pkgs ↔ ∃ q ∈ pkgs, kv = (q.name, q) := by
  rw [(sortedPkgPairs_perm pkgs).mem_iff, List.mem_map]
  constructor
  · rintro ⟨q, hq, rfl⟩
    exact ⟨q, hq, rfl⟩
  · rintro ⟨q, hq, rfl⟩
    exact ⟨q, hq, rfl⟩

theorem pkgDict_eq (pkgs : List ResolvedPkg) (h : (pkgs.map (fun p => p.name)).Nodup) :
    pkgDict pkgs = sortedPkgPairs pkgs := by
  apply toOrderedDict_eq
  have hperm : ((sortedPkgPairs pkgs).map Prod.fst).Perm (pkgs.map (fun p => p.name)) := by
    have hmm := (sortedPkgPairs_perm pkgs).map Prod.fst
    rw [List.map_map] at hmm
    have hid : (pkgs.map (Prod.fst ∘ fun p => (p.name, p))) = pkgs.map (fun p => p.name) := by
      simp [Function.comp_def]
    rwa [hid] at hmm
  exact hperm.nodup_iff.mpr h

theorem pkgDict_values_perm (pkgs : List ResolvedPkg) (h : (pkgs.map (fun p => p.name)).Nodup) :
    ((pkgDict pkgs).map (fun kv => kv.2)).Perm pkgs := by
  rw [pkgDict_eq pkgs h]
  have hmm := (sortedPkgPairs_perm pkgs).map (fun kv : String × ResolvedPkg => kv.2)
  rw [List.map_map] at hmm
  have hid : (pkgs.map ((fun kv : String × ResolvedPkg => kv.2) ∘ fun p => (p.name, p))) = pkgs := by
    simp [Function.comp_def]
  rwa [hid] at hmm

theorem name_inj (pkgs : List ResolvedPkg) (h : (pkgs.map (fun p => p.name)).Nodup)
    {p q : ResolvedPkg} (hp : p ∈ pkgs) (hq : q ∈ pkgs) (heq : p.name = q.name) : p = q :=
  List.inj_on_of_nodup_map h hp hq heq

theorem dictGet?_eq_some (pkgs : List ResolvedPkg) (h : (pkgs.map (fun p => p.name)).Nodup)
    {p : ResolvedPkg} (hp : p ∈ pkgs) : dictGet? (pkgDict pkgs) p.name = some p := by
  unfold dictGet?
  have hmem : (p.name, p) ∈ pkgDict pkgs := by
    rw [pkgDict_eq pkgs h, mem_sortedPkgPairs]
    exact ⟨p, hp, rfl⟩
  cases hfind : (pkgDict pkgs).find? (fun kv => kv.1 == p.name) with
  | none =>
    rw [List.find?_eq_none] at hfind
    exact absurd (by simp) (hfind (p.name, p) hmem)
  | some kv =>
    have hkv1 : kv.1 = p.name := by simpa using List.find?_some hfind
    have hkvmem : kv ∈ pkgDict pkgs := List.mem_of_find?_eq_some hfind
    rw [pkgDict_eq pkgs h, mem_sortedPkgPairs] at hkvmem
    obtain ⟨q, hq, rfl⟩ := hkvmem
    have : q = p := name_inj pkgs h hq hp (by simpa using hkv1)
    subst this
    rfl

theorem dictGet?_none_iff (pkgs : List ResolvedPkg) (h : (pkgs.map (fun p => p.name)).Nodup)
    (b : String) : dictGet? (pkgDict pkgs) b = none ↔ ∀ q ∈ pkgs, q.name ≠ b := by
  unfold dictGet?
  rw [Option.map_eq_none', List.find?_eq_none]
  constructor
  · intro hall q hq heq
    have hmem : (q.name, q) ∈ pkgDict pkgs := by
      rw [pkgDict_eq pkgs h, mem_sortedPkgPairs]
      exact ⟨q, hq, rfl⟩
    exact hall (q.name, q) hmem (by simpa using heq)
  · intro hall kv hkv
    have hkvmem := hkv
    rw [pkgDict_eq pkgs h, mem_sortedPkgPairs] at hkvmem
    obtain ⟨q, hq, rfl⟩ := hkvmem
    simpa using hall q hq

theorem dictGet?_isSome_of (pkgs : List ResolvedPkg) (h : (pkgs.map (fun p => p.name)).Nodup)
    {b : String} (hb : ∃ q ∈ pkgs, q.name = b) : (dictGet? (pkgDict pkgs) b).isSome = true := by
  obtain ⟨q, hq, rfl⟩ := hb
  rw [dictGet?_eq_some pkgs h hq]
  rfl

theorem mem_overlayKeys (g : OverlaysGenerator) (pkgs : List ResolvedPkg)
    (h : (pkgs.map (fun p => p.name)).Nodup) (b : String) :
    b ∈ overlayKeysOf g (pkgDict pkgs)
      ↔ ∃ q ∈ pkgs, q.name = b ∧ _needs_overlay g q.name q.ver = true := by
  unfold overlayKeysOf
  rw [List.mem_dedup, List.mem_map]
  constructor
  · rintro ⟨q, hq, rfl⟩
    rw [List.mem_filter] at hq
    have := (pkgDict_values_perm pkgs h).mem_iff.mp hq.1
    exact ⟨q, this, rfl, hq.2⟩
  · rintro ⟨q, hq, rfl, hneed⟩
    refine ⟨q, ?_, rfl⟩
    rw [List.mem_filter]
    exact ⟨(pkgDict_values_perm pkgs h).mem_iff.mpr hq, hneed⟩

theorem unify_eq_concat (master : String) (keys : List String) :
    _gen_unify_nixpkgs_keys master keys
      = pyConcat (keys.map (fun k => aliasLine k master ++ "\n")) := by
  induction keys with
  | nil => rfl
  | cons k rest ih =>
    show ("        " ++ k ++ " = " ++ master ++ ";" ++ "\n") ++ _gen_unify_nixpkgs_keys master rest
      = pyConcat ((aliasLine k master ++ "\n") :: rest.map (fun k => aliasLine k master ++ "\n"))
    rw [pyConcat_cons, ih, aliasLine]

-- ===================== Block closed forms =====================

theorem pyConcat_nil : pyConcat [] = "" := rfl

theorem ite_append (c : Prop) [Decidable c] (out s : String) :
    (if c then out ++ s else out) = out ++ (if c then s else "") := by
  split
  · rfl
  · rw [str_append_nil]

theorem ite_map {α β : Type} (c : Prop) [Decidable c] (f : α → β) (a b : List α) :
    (if c then a else b).map f = if c then a.map f else b.map f := by
  split <;> rfl

theorem ite_pyConcat (c : Prop) [Decidable c] (a b : List String) :
    pyConcat (if c then a else b) = if c then pyConcat a else pyConcat b := by
  split <;> rfl

theorem mem_ite_list {α : Type} (c : Prop) [Decidable c] (a b : List α) (x : α) :
    x ∈ (if c then a else b) ↔ (c ∧ x ∈ a) ∨ (¬c ∧ x ∈ b) := by
  split <;> simp_all

theorem len4_left (a b : String) (h : 4 ≤ a.data.length) : 4 ≤ (a ++ b).data.length := by
  rw [String.data_append, List.length_append]
  omega

theorem strDrop_pref (lit lit2 : String) (h : strDrop lit 4 = lit2) (hl : 4 ≤ lit.data.length)
    (r : String) : strDrop (lit ++ r) 4 = lit2 ++ r := by
  rw [strDrop_append 4 lit r hl, h]

theorem strDrop12 (r : String) : strDrop ("            " ++ r) 4 = "        " ++ r :=
  strDrop_pref ("            ") ("        ") (by decide) (by decide) r

theorem strDropName (r : String) :
    strDrop ("              name = \"" ++ r) 4 = "          name = \"" ++ r :=
  strDrop_pref ("              name = \"") ("          name = \"") (by decide) (by decide) r

theorem strDropSrc (r : String) :
    strDrop ("              src = fetchPypi \"" ++ r) 4 = "          src = fetchPypi \"" ++ r :=
  strDrop_pref ("              src = fetchPypi \"") ("          src = fetchPypi \"")
    (by decide) (by decide) r

theorem strDropOvBI (r : String) :
    strDrop ("              buildInputs = oldAttrs.buildInputs ++ [ " ++ r) 4
      = "          buildInputs = oldAttrs.buildInputs ++ [ " ++ r :=
  strDrop_pref ("              buildInputs = oldAttrs.buildInputs ++ [ ")
    ("          buildInputs = oldAttrs.buildInputs ++ [ ") (by decide) (by decide) r

theorem strDropOvPBI (r : String) :
    strDrop ("              propagatedBuildInputs = oldAttrs.propagatedBuildInputs ++ [ " ++ r) 4
      = "          propagatedBuildInputs = oldAttrs.propagatedBuildInputs ++ [ " ++ r :=
  strDrop_pref ("              propagatedBuildInputs = oldAttrs.propagatedBuildInputs ++ [ ")
    ("          propagatedBuildInputs = oldAttrs.propagatedBuildInputs ++ [ ")
    (by decide) (by decide) r

theorem strDropBpBI (r : String) :
    strDrop ("              buildInputs = [ " ++ r) 4 = "          buildInputs = [ " ++ r :=
  strDrop_pref ("              buildInputs = [ ") ("          buildInputs = [ ")
    (by decide) (by decide) r

theorem strDropBpPBI (r : String) :
    strDrop ("              propagatedBuildInputs = [ " ++ r) 4
      = "          propagatedBuildInputs = [ " ++ r :=
  strDrop_pref ("              propagatedBuildInputs = [ ")
    ("          propagatedBuildInputs = [ ") (by decide) (by decide) r

theorem strDropDoCheck : strDrop ("              doCheck = false;") 4 = doCheckLine := by decide

theorem strDropDoInstall :
    strDrop ("              doInstallCheck = false;") 4 = doInstallCheckLine := by decide

theorem strDropOvClose : strDrop ("            \x7d);") 4 = ovCloseLine := by decide

theorem strDropBpClose : strDrop ("            \x7d;") 4 = bpCloseLine := by decide

theorem gen_overrideAttrs_eq (g : OverlaysGenerator) (name ver nix_name bi pbi : String)
    (hn : noNl name) (hv : noNl ver) (hx : noNl nix_name) (hb : noNl bi) (hp : noNl pbi) :
    _gen_overrideAttrs g name ver nix_name bi pbi
      = pyConcat ((ovBodies g name ver nix_name bi pbi).map (fun l => l ++ "\n")) := by
  simp only [_gen_overrideAttrs]
  trans (unindent (pyConcat
      ((["            " ++ (nix_name ++ (" = python-super." ++ (nix_name ++ ".overrideAttrs ( oldAttrs: \x7b"))),
        "              name = \"" ++ (name ++ ("-" ++ (ver ++ "\";"))),
        "              src = fetchPypi \"" ++ (name ++ ("\" \"" ++ (ver ++ "\";")))]
        ++ (if bi ≠ "" then ["              buildInputs = oldAttrs.buildInputs ++ [ " ++ (bi ++ " ];")] else [])
        ++ (if pbi ≠ "" then ["              propagatedBuildInputs = oldAttrs.propagatedBuildInputs ++ [ " ++ (pbi ++ " ];")] else [])
        ++ (if g.disable_checks then ["              doCheck = false;", "              doInstallCheck = false;"] else [])
        ++ ["            \x7d);"]).map (fun l => "\n" ++ l)) ++ "\n") 4)
  · congr 1
    simp only [ite_append]
    simp only [List.map_append, List.map_cons, List.map_nil, ite_map, ite_pyConcat,
      pyConcat_append, pyConcat_cons, pyConcat_nil, str_assoc, str_append_nil, str_nil_append]
  · rw [unindent_lines 4 (by decide) _ ?side]
    case side =>
      intro l hl
      simp only [List.mem_append, mem_ite_list, List.mem_cons, List.mem_singleton,
        List.not_mem_nil, and_false, false_and, or_false, false_or] at hl
      rcases hl with ((((rfl | rfl | rfl) | ⟨-, rfl⟩) | ⟨-, rfl⟩) | ⟨-, rfl | rfl⟩) | rfl
      · refine ⟨?_, len4_left _ _ (by decide)⟩
        simp only [noNl_append_iff]
        exact ⟨by decide, hx, by decide, hx, by decide⟩
      · refine ⟨?_, len4_left _ _ (by decide)⟩
        simp only [noNl_append_iff]
        exact ⟨by decide, hn, by decide, hv, by decide⟩
      · refine ⟨?_, len4_left _ _ (by decide)⟩
        simp only [noNl_append_iff]
        exact ⟨by decide, hn, by decide, hv, by decide⟩
      · refine ⟨?_, len4_left _ _ (by decide)⟩
        simp only [noNl_append_iff]
        exact ⟨by decide, hb, by decide⟩
      · refine ⟨?_, len4_left _ _ (by decide)⟩
        simp only [noNl_append_iff]
        exact ⟨by decide, hp, by decide⟩
      · exact ⟨by decide, by decide⟩
      · exact ⟨by decide, by decide⟩
      · exact ⟨by decide, by decide⟩
    simp only [ovBodies, ovHeadLine, nameLine, srcLine, ovBuildLine, ovPropLine,
      doCheckLine, doInstallCheckLine, ovCloseLine, List.map_append, List.map_cons,
      List.map_nil, ite_map, ite_pyConcat, pyConcat_append, pyConcat_cons, pyConcat_nil,
      strDrop12, strDropName, strDropSrc, strDropOvBI, strDropOvPBI,
      strDropDoCheck, strDropDoInstall, strDropOvClose,
      str_assoc, str_append_nil, str_nil_append]

theorem gen_builPythonPackage_eq (g : OverlaysGenerator) (name ver bi pbi : String)
    (hn : noNl name) (hv : noNl ver) (hb : noNl bi) (hp : noNl pbi) :
    _gen_builPythonPackage g name ver bi pbi
      = pyConcat ((bpBodies g name ver bi pbi).map (fun l => l ++ "\n")) := by
  simp only [_gen_builPythonPackage]
  trans (unindent (pyConcat
      ((["            " ++ (name ++ " = python.pkgs.buildPythonPackage \x7b"),
        "              name = \"" ++ (name ++ ("-" ++ (ver ++ "\";"))),
        "              src = fetchPypi \"" ++ (name ++ ("\" \"" ++ (ver ++ "\";")))]
        ++ (if pyStrip bi ≠ "" then ["              buildInputs = [ " ++ (bi ++ " ];")] else [])
        ++ (if pyStrip pbi ≠ "" then ["              propagatedBuildInputs = [ " ++ (pbi ++ " ];")] else [])
        ++ (if g.disable_checks then ["              doCheck = false;", "              doInstallCheck = false;"] else [])
        ++ ["            \x7d;"]).map (fun l => "\n" ++ l)) ++ "\n") 4)
  · congr 1
    simp only [ite_append]
    simp only [List.map_append, List.map_cons, List.map_nil, ite_map, ite_pyConcat,
      pyConcat_append, pyConcat_cons, pyConcat_nil, str_assoc, str_append_nil, str_nil_append]
  · rw [unindent_lines 4 (by decide) _ ?side]
    case side =>
      intro l hl
      simp only [List.mem_append, mem_ite_list, List.mem_cons, List.mem_singleton,
        List.not_mem_nil, and_false, false_and, or_false, false_or] at hl
      rcases hl with ((((rfl | rfl | rfl) | ⟨-, rfl⟩) | ⟨-, rfl⟩) | ⟨-, rfl | rfl⟩) | rfl
      · refine ⟨?_, len4_left _ _ (by decide)⟩
        simp only [noNl_append_iff]
        exact ⟨by decide, hn, by decide⟩
      · refine ⟨?_, len4_left _ _ (by decide)⟩
        simp only [noNl_append_iff]
        exact ⟨by decide, hn, by decide, hv, by decide⟩
      · refine ⟨?_, len4_left _ _ (by decide)⟩
        simp only [noNl_append_iff]
        exact ⟨by decide, hn, by decide, hv, by decide⟩
      · refine ⟨?_, len4_left _ _ (by decide)⟩
        simp only [noNl_append_iff]
        exact ⟨by decide, hb, by decide⟩
      · refine ⟨?_, len4_left _ _ (by decide)⟩
        simp only [noNl_append_iff]
        exact ⟨by decide, hp, by decide⟩
      · exact ⟨by decide, by decide⟩
      · exact ⟨by decide, by decide⟩
      · exact ⟨by decide, by decide⟩
    simp only [bpBodies, bpHeadLine, nameLine, srcLine, bpBuildLine, bpPropLine,
      doCheckLine, doInstallCheckLine, bpCloseLine, List.map_append, List.map_cons,
      List.map_nil, ite_map, ite_pyConcat, pyConcat_append, pyConcat_cons, pyConcat_nil,
      strDrop12, strDropName, strDropSrc, strDropBpBI, strDropBpPBI,
      strDropDoCheck, strDropDoInstall, strDropBpClose,
      str_assoc, str_append_nil, str_nil_append]

-- ===================== Line observation lemmas =====================

theorem ovBodies_noNl (g : OverlaysGenerator) (name ver nix_name bi pbi : String)
    (hn : noNl name) (hv : noNl ver) (hx : noNl nix_name) (hb : noNl bi) (hp : noNl pbi) :
    ∀ l ∈ ovBodies g name ver nix_name bi pbi, noNl l := by
  intro l hl
  simp only [ovBodies, List.mem_append, mem_ite_list, List.mem_cons, List.mem_singleton,
    List.not_mem_nil, and_false, false_and, or_false, false_or] at hl
  rcases hl with ((((rfl | rfl | rfl) | ⟨-, rfl⟩) | ⟨-, rfl⟩) | ⟨-, rfl | rfl⟩) | rfl
  · simp only [ovHeadLine, noNl_append_iff]
    exact ⟨⟨⟨⟨by decide, hx⟩, by decide⟩, hx⟩, by decide⟩
  · simp only [nameLine, noNl_append_iff]
    exact ⟨⟨⟨⟨by decide, hn⟩, by decide⟩, hv⟩, by decide⟩
  · simp only [srcLine, noNl_append_iff]
    exact ⟨⟨⟨⟨by decide, hn⟩, by decide⟩, hv⟩, by decide⟩
  · simp only [ovBuildLine, noNl_append_iff]
    exact ⟨⟨by decide, hb⟩, by decide⟩
  · simp only [ovPropLine, noNl_append_iff]
    exact ⟨⟨by decide, hp⟩, by decide⟩
  · exact (by decide : noNl doCheckLine)
  · exact (by decide : noNl doInstallCheckLine)
  · exact (by decide : noNl ovCloseLine)

theorem bpBodies_noNl (g : OverlaysGenerator) (name ver bi pbi : String)
    (hn : noNl name) (hv : noNl ver) (hb : noNl bi) (hp : noNl pbi) :
    ∀ l ∈ bpBodies g name ver bi pbi, noNl l := by
  intro l hl
  simp only [bpBodies, List.mem_append, mem_ite_list, List.mem_cons, List.mem_singleton,
    List.not_mem_nil, and_false, false_and, or_false, false_or] at hl
  rcases hl with ((((rfl | rfl | rfl) | ⟨-, rfl⟩) | ⟨-, rfl⟩) | ⟨-, rfl | rfl⟩) | rfl
  · simp only [bpHeadLine, noNl_append_iff]
    exact ⟨⟨by decide, hn⟩, by decide⟩
  · simp only [nameLine, noNl_append_iff]
    exact ⟨⟨⟨⟨by decide, hn⟩, by decide⟩, hv⟩, by decide⟩
  · simp only [srcLine, noNl_append_iff]
    exact ⟨⟨⟨⟨by decide, hn⟩, by decide⟩, hv⟩, by decide⟩
  · simp only [bpBuildLine, noNl_append_iff]
    exact ⟨⟨by decide, hb⟩, by decide⟩
  · simp only [bpPropLine, noNl_append_iff]
    exact ⟨⟨by decide, hp⟩, by decide⟩
  · exact (by decide : noNl doCheckLine)
  · exact (by decide : noNl doInstallCheckLine)
  · exact (by decide : noNl bpCloseLine)

theorem hasLine_overrideAttrs (g : OverlaysGenerator) (name ver nix_name bi pbi : String)
    (hn : noNl name) (hv : noNl ver) (hx : noNl nix_name) (hb : noNl bi) (hp : noNl pbi)
    (line : String) :
    hasLine (_gen_overrideAttrs g name ver nix_name bi pbi) line
      ↔ line ∈ ovBodies g name ver nix_name bi pbi := by
  rw [gen_overrideAttrs_eq g name ver nix_name bi pbi hn hv hx hb hp]
  exact hasLine_concat_iff _ _ (ovBodies_noNl g name ver nix_name bi pbi hn hv hx hb hp)

theorem hasLine_builPythonPackage (g : OverlaysGenerator) (name ver bi pbi : String)
    (hn : noNl name) (hv : noNl ver) (hb : noNl bi) (hp : noNl pbi) (line : String) :
    hasLine (_gen_builPythonPackage g name ver bi pbi) line
      ↔ line ∈ bpBodies g name ver bi pbi := by
  rw [gen_builPythonPackage_eq g name ver bi pbi hn hv hb hp]
  exact hasLine_concat_iff _ _ (bpBodies_noNl g name ver bi pbi hn hv hb hp)

-- ===================== Line inequality toolkit =====================

theorem str_ne_of_pfx (p1 p2 : String) {x y : String} (h1 : p1.data <+: x.data)
    (h2 : p2.data <+: y.data) (hl : p1.data.length = p2.data.length) (hne : p1 ≠ p2) :
    x ≠ y := by
  intro hxy
  apply hne
  apply String.ext
  subst hxy
  obtain ⟨t1, ht1⟩ := h1
  obtain ⟨t2, ht2⟩ := h2
  exact List.append_inj_left (ht1.trans ht2.symm) hl

theorem str_ne_of_sfx (s1 s2 : String) {x y : String} (h1 : s1.data <:+ x.data)
    (h2 : s2.data <:+ y.data) (hl : s1.data.length = s2.data.length) (hne : s1 ≠ s2) :
    x ≠ y := by
  intro hxy
  apply hne
  apply String.ext
  subst hxy
  obtain ⟨t1, ht1⟩ := h1
  obtain ⟨t2, ht2⟩ := h2
  have heq := ht1.trans ht2.symm
  refine List.append_inj_right heq ?_
  have hlen := congrArg List.length heq
  simp only [List.length_append] at hlen
  omega

theorem pfx_appR {t c : List Char} (h : t <+: c) (b : List Char) : t <+: c ++ b :=
  h.trans (List.prefix_append c b)

theorem sfx_appL {t c : List Char} (h : t <:+ c) (b : List Char) : t <:+ b ++ c :=
  h.trans (List.suffix_append b c)

-- ===================== Generator-level lemmas =====================

theorem resolve_eq_map (g : OverlaysGenerator) (pkgs : List (String × ResolvedPkg)) :
    ∀ inputs : List String, (∀ b ∈ inputs, (dictGet? pkgs b).isSome = true) →
      _resolve_input_refs g pkgs inputs = Except.ok (inputs.map (refName g pkgs)) := by
  intro inputs
  induction inputs with
  | nil => exact fun _ => rfl
  | cons b rest ih =>
    intro h
    have hb := h b (List.mem_cons_self b rest)
    obtain ⟨q, hq⟩ := Option.isSome_iff_exists.mp hb
    have htl := ih (fun x hx => h x (List.mem_cons_of_mem b hx))
    simp only [_resolve_input_refs, hq, htl, List.map_cons]
    simp only [refName, hq]

theorem resolve_error_missing (g : OverlaysGenerator) (pkgs : List (String × ResolvedPkg)) :
    ∀ inputs m, _resolve_input_refs g pkgs inputs = Except.error m →
      dictGet? pkgs m = none := by
  intro inputs
  induction inputs with
  | nil => intro m h; exact absurd h (by simp [_resolve_input_refs])
  | cons b rest ih =>
    intro m h
    unfold _resolve_input_refs at h
    cases hb : dictGet? pkgs b with
    | none =>
      rw [hb] at h
      obtain rfl : b = m := by simpa using h
      exact hb
    | some q =>
      rw [hb] at h
      cases hr : _resolve_input_refs g pkgs rest with
      | error m2 =>
        rw [hr] at h
        obtain rfl : m2 = m := by simpa using h
        exact ih _ hr
      | ok tl =>
        rw [hr] at h
        exact absurd h (by simp)

theorem resolve_error_of_missing (g : OverlaysGenerator) (pkgs : List (String × ResolvedPkg)) :
    ∀ inputs, (∃ b ∈ inputs, dictGet? pkgs b = none) →
      ∃ m, _resolve_input_refs g pkgs inputs = Except.error m := by
  intro inputs
  induction inputs with
  | nil => rintro ⟨b, hb, -⟩; exact absurd hb (List.not_mem_nil b)
  | cons b rest ih =>
    rintro ⟨x, hx, hxn⟩
    unfold _resolve_input_refs
    cases hb : dictGet? pkgs b with
    | none => exact ⟨b, rfl⟩
    | some q =>
      have hxr : x ∈ rest := by
        rcases List.mem_cons.mp hx with rfl | hr
        · rw [hb] at hxn; cases hxn
        · exact hr
      obtain ⟨m, hm⟩ := ih ⟨x, hxr, hxn⟩
      rw [hm]
      exact ⟨m, rfl⟩

theorem gen_overlay_pkg_skip (g : OverlaysGenerator) (pkgs : List (String × ResolvedPkg))
    (keys : List String) (pkg : ResolvedPkg) (h : pkg.name ∉ keys) :
    _gen_overlay_pkg g pkgs keys pkg = Except.ok ("") := by
  unfold _gen_overlay_pkg
  rw [if_neg h]

theorem gen_overlay_pkg_override (g : OverlaysGenerator) (pkgs : List (String × ResolvedPkg))
    (keys : List String) (pkg : ResolvedPkg) (hk : pkg.name ∈ keys)
    (hbi : ∀ b ∈ pkg.build_inputs, (dictGet? pkgs b).isSome = true)
    (hpbi : ∀ b ∈ pkg.prop_build_inputs, (dictGet? pkgs b).isSome = true)
    (hex : g.nixpkgs.exists1 pkg.name = true) :
    _gen_overlay_pkg g pkgs keys pkg = Except.ok
      (_gen_overrideAttrs g pkg.name pkg.ver
        (g.nixpkgs.find_best_nixpkgs_candidate pkg.name pkg.ver)
        (pyStrip (_gen_build_inputs
          (inputsLocal keys (pkg.build_inputs.map (refName g pkgs)))
          (inputsFromIndex keys (pkg.build_inputs.map (refName g pkgs)))))
        (pyStrip (_gen_prop_build_inputs
          (inputsLocal keys (pkg.prop_build_inputs.map (refName g pkgs)))
          (inputsFromIndex keys (pkg.prop_build_inputs.map (refName g pkgs)))))
      ++ _gen_unify_nixpkgs_keys (_get_ref_name g pkg.name pkg.ver)
        (sortStr ((g.nixpkgs.get_all_candidates pkg.name).filter
          (fun k => decide (k ≠ _get_ref_name g pkg.name pkg.ver))))) := by
  unfold _gen_overlay_pkg
  rw [if_pos hk, resolve_eq_map g pkgs _ hbi, resolve_eq_map g pkgs _ hpbi]
  simp only [hex, if_true]

theorem gen_overlay_pkg_fresh (g : OverlaysGenerator) (pkgs : List (String × ResolvedPkg))
    (keys : List String) (pkg : ResolvedPkg) (hk : pkg.name ∈ keys)
    (hbi : ∀ b ∈ pkg.build_inputs, (dictGet? pkgs b).isSome = true)
    (hpbi : ∀ b ∈ pkg.prop_build_inputs, (dictGet? pkgs b).isSome = true)
    (hex : g.nixpkgs.exists1 pkg.name = false) :
    _gen_overlay_pkg g pkgs keys pkg = Except.ok
      (_gen_builPythonPackage g pkg.name pkg.ver
        (pyStrip (_gen_build_inputs
          (inputsLocal keys (pkg.build_inputs.map (refName g pkgs)))
          (inputsFromIndex keys (pkg.build_inputs.map (refName g pkgs)))))
        (pyStrip (_gen_prop_build_inputs
          (inputsLocal keys (pkg.prop_build_inputs.map (refName g pkgs)))
          (inputsFromIndex keys (pkg.prop_build_inputs.map (refName g pkgs)))))) := by
  unfold _gen_overlay_pkg
  rw [if_pos hk, resolve_eq_map g pkgs _ hbi, resolve_eq_map g pkgs _ hpbi]
  simp only [hex, if_false, Bool.false_eq_true]

theorem gen_overlay_pkg_ok (g : OverlaysGenerator) (pkgs : List (String × ResolvedPkg))
    (keys : List String) (pkg : ResolvedPkg)
    (hbi : ∀ b ∈ pkg.build_inputs, (dictGet? pkgs b).isSome = true)
    (hpbi : ∀ b ∈ pkg.prop_build_inputs, (dictGet? pkgs b).isSome = true) :
    ∃ blk, _gen_overlay_pkg g pkgs keys pkg = Except.ok blk := by
  by_cases hk : pkg.name ∈ keys
  · cases hex : g.nixpkgs.exists1 pkg.name with
    | true => exact ⟨_, gen_overlay_pkg_override g pkgs keys pkg hk hbi hpbi hex⟩
    | false => exact ⟨_, gen_overlay_pkg_fresh g pkgs keys pkg hk hbi hpbi hex⟩
  · exact ⟨"", gen_overlay_pkg_skip g pkgs keys pkg hk⟩

theorem gen_overlay_pkg_error_missing (g : OverlaysGenerator)
    (pkgs : List (String × ResolvedPkg)) (keys : List String) (pkg : ResolvedPkg) (m : String)
    (h : _gen_overlay_pkg g pkgs keys pkg = Except.error m) : dictGet? pkgs m = none := by
  unfold _gen_overlay_pkg at h
  by_cases hk : pkg.name ∈ keys
  · rw [if_pos hk] at h
    split at h
    · rename_i m1 heq1
      obtain rfl : m1 = m := by simpa using h
      exact resolve_error_missing g pkgs _ _ heq1
    · rename_i r1 heq1
      split at h
      · rename_i m2 heq2
        obtain rfl : m2 = m := by simpa using h
        exact resolve_error_missing g pkgs _ _ heq2
      · rename_i r2 heq2
        split at h <;> simp at h
  · rw [if_neg hk] at h
    exact absurd h (by simp)

theorem genBlocks_ok (g : OverlaysGenerator) (pkgs : List (String × ResolvedPkg))
    (keys : List String) :
    ∀ vs : List ResolvedPkg, (∀ p ∈ vs, ∃ blk, _gen_overlay_pkg g pkgs keys p = Except.ok blk) →
      ∃ out, genOverlayBlocks g pkgs keys vs = Except.ok out := by
  intro vs
  induction vs with
  | nil => exact fun _ => ⟨"", rfl⟩
  | cons p rest ih =>
    intro h
    obtain ⟨blk, hblk⟩ := h p (List.mem_cons_self p rest)
    obtain ⟨out, hout⟩ := ih (fun q hq => h q (List.mem_cons_of_mem p hq))
    refine ⟨blk ++ out, ?_⟩
    simp [genOverlayBlocks, hblk, hout]

theorem occursIn_appendR (p s b : String) (h : occursIn p s) : occursIn p (s ++ b) := by
  unfold occursIn at *
  rw [String.data_append]
  obtain ⟨u, v, huv⟩ := h
  exact ⟨u, v ++ b.data, by rw [← huv]; simp [List.append_assoc]⟩

theorem occursIn_appendL (p s a : String) (h : occursIn p s) : occursIn p (a ++ s) := by
  unfold occursIn at *
  rw [String.data_append]
  obtain ⟨u, v, huv⟩ := h
  exact ⟨a.data ++ u, v, by rw [← huv]; simp [List.append_assoc]⟩

theorem occursIn_self_append (p b : String) : occursIn p (p ++ b) := by
  unfold occursIn
  rw [String.data_append]
  exact ⟨[], b.data, by simp⟩

theorem occursIn_refl (p : String) : occursIn p p := by
  unfold occursIn
  exact ⟨[], [], by simp⟩

theorem genBlocks_infix (g : OverlaysGenerator) (pkgs : List (String × ResolvedPkg))
    (keys : List String) :
    ∀ (vs : List ResolvedPkg) (S : String) (q : ResolvedPkg) (blk : String),
      genOverlayBlocks g pkgs keys vs = Except.ok S → q ∈ vs →
      _gen_overlay_pkg g pkgs keys q = Except.ok blk → occursIn blk S := by
  intro vs
  induction vs with
  | nil => intro S q blk _ hq; exact absurd hq (List.not_mem_nil q)
  | cons p rest ih =>
    intro S q blk hS hq hblk
    unfold genOverlayBlocks at hS
    cases h1 : _gen_overlay_pkg g pkgs keys p with
    | error m => rw [h1] at hS; exact absurd hS (by simp)
    | ok blkp =>
      rw [h1] at hS
      cases h2 : genOverlayBlocks g pkgs keys rest with
      | error m => rw [h2] at hS; exact absurd hS (by simp)
      | ok out =>
        rw [h2] at hS
        obtain rfl : blkp ++ out = S := by simpa using hS
        rcases List.mem_cons.mp hq with rfl | hqr
        · obtain rfl : blkp = blk := by
            have := h1.symm.trans hblk
            simpa using this
          exact occursIn_self_append _ _
        · exact occursIn_appendL blk out blkp (ih out q blk h2 hqr hblk)

theorem genBlocks_error_missing (g : OverlaysGenerator) (pkgs : List (String × ResolvedPkg))
    (keys : List String) :
    ∀ (vs : List ResolvedPkg) (m : String), genOverlayBlocks g pkgs keys vs = Except.error m →
      dictGet? pkgs m = none := by
  intro vs
  induction vs with
  | nil => intro m h; exact absurd h (by simp [genOverlayBlocks])
  | cons p rest ih =>
    intro m h
    unfold genOverlayBlocks at h
    cases h1 : _gen_overlay_pkg g pkgs keys p with
    | error m1 =>
      rw [h1] at h
      obtain rfl : m1 = m := by simpa using h
      exact gen_overlay_pkg_error_missing g pkgs keys p _ h1
    | ok blkp =>
      rw [h1] at h
      cases h2 : genOverlayBlocks g pkgs keys rest with
      | error m2 =>
        rw [h2] at h
        obtain rfl : m2 = m := by simpa using h
        exact ih _ h2
      | ok out => rw [h2] at h; exact absurd h (by simp)

theorem genBlocks_error_of (g : OverlaysGenerator) (pkgs : List (String × ResolvedPkg))
    (keys : List String) :
    ∀ (vs : List ResolvedPkg) (q : ResolvedPkg) (mq : String), q ∈ vs →
      _gen_overlay_pkg g pkgs keys q = Except.error mq →
      ∃ m, genOverlayBlocks g pkgs keys vs = Except.error m := by
  intro vs
  induction vs with
  | nil => intro q mq hq; exact absurd hq (List.not_mem_nil q)
  | cons p rest ih =>
    intro q mq hq hqe
    unfold genOverlayBlocks
    cases h1 : _gen_overlay_pkg g pkgs keys p with
    | error m1 => exact ⟨m1, rfl⟩
    | ok blkp =>
      have hqr : q ∈ rest := by
        rcases List.mem_cons.mp hq with rfl | hr
        · rw [h1] at hqe; cases hqe
        · exact hr
      obtain ⟨m, hm⟩ := ih q mq hqr hqe
      rw [hm]
      exact ⟨m, rfl⟩

theorem gen_overlays_ok (g : OverlaysGenerator) (pkgs : List (String × ResolvedPkg))
    (keys : List String) (body : String)
    (h : genOverlayBlocks g pkgs keys (pkgs.map (fun kv => kv.2)) = Except.ok body) :
    ∃ hd tl, _gen_overlays g pkgs keys = Except.ok (hd ++ body ++ tl) := by
  unfold _gen_overlays
  rw [h]
  exact ⟨_, _, rfl⟩

theorem gen_overlays_error (g : OverlaysGenerator) (pkgs : List (String × ResolvedPkg))
    (keys : List String) (m : String)
    (h : genOverlayBlocks g pkgs keys (pkgs.map (fun kv => kv.2)) = Except.error m) :
    _gen_overlays g pkgs keys = Except.error m := by
  unfold _gen_overlays
  rw [h]

theorem gen_python_env_of_ok (g : OverlaysGenerator) (pkgs : List (String × ResolvedPkg))
    (ov : String) (h : _gen_overlays g pkgs (overlayKeysOf g pkgs) = Except.ok ov) :
    _gen_python_env g pkgs
      = Except.ok (_gen_imports g ++ ov ++ envExprOf g (pkgNamesOf g pkgs)) := by
  simp only [_gen_python_env, h]

theorem gen_python_env_of_error (g : OverlaysGenerator) (pkgs : List (String × ResolvedPkg))
    (m : String) (h : _gen_overlays g pkgs (overlayKeysOf g pkgs) = Except.error m) :
    _gen_python_env g pkgs = Except.error m := by
  simp only [_gen_python_env, h]

-- ===================== Claims =====================

/-- C1: the conflict classifier `_needs_overlay(name, version)` returns true
if and only if the index has no exact match for `(name, version)` or the
index has more than one identifier for `name`; as embedded it is a pure
function of the generator configuration and its arguments, with no side
effects. -/
theorem needs_overlay_spec (g : OverlaysGenerator) (name ver : String) :
    _needs_overlay g name ver = true
      ↔ (g.nixpkgs.exists2 name ver = false
          ∨ g.nixpkgs.has_multiple_candidates name = true) := by
  unfold _needs_overlay
  cases h1 : g.nixpkgs.exists2 name ver <;>
    cases h2 : g.nixpkgs.has_multiple_candidates name <;> simp

/-- C2: the reference resolver `_get_ref_name(name, version)` returns the
index's chosen canonical identifier (`find_best_nixpkgs_candidate`) when the
index has a match for the name, and the bare package name otherwise. -/
theorem get_ref_name_spec (g : OverlaysGenerator) (name ver : String) :
    (g.nixpkgs.exists1 name = true →
      _get_ref_name g name ver = g.nixpkgs.find_best_nixpkgs_candidate name ver)
    ∧ (g.nixpkgs.exists1 name = false → _get_ref_name g name ver = name) := by
  constructor
  · intro h
    unfold _get_ref_name
    rw [if_pos h]
  · intro h
    unfold _get_ref_name
    rw [if_neg (by simp [h])]

/-- Witness for C2 at a concrete index: F is indexed (canonical identifier
returned), E is not (bare name returned). -/
theorem get_ref_name_spec_witness :
    _get_ref_name (mkGen idxD true) "F" "1.0"
        = (mkGen idxD true).nixpkgs.find_best_nixpkgs_candidate "F" "1.0"
    ∧ _get_ref_name (mkGen idxD true) "E" "1.0" = "E" :=
  ⟨(get_ref_name_spec (mkGen idxD true) "F" "1.0").1 (by decide),
   (get_ref_name_spec (mkGen idxD true) "E" "1.0").2 (by decide)⟩

/-- C5: generation is deterministic — the embedding of the generator is a
pure function, so two runs on identical (resolved set, configuration) inputs
produce byte-identical output strings. -/
theorem generate_deterministic (g1 g2 : OverlaysGenerator)
    (pkgs1 pkgs2 : List ResolvedPkg) (hg : g1 = g2) (hp : pkgs1 = pkgs2) :
    generate g1 pkgs1 = generate g2 pkgs2 := by
  rw [hg, hp]

/-- Witness for C5 at a concrete input. -/
theorem generate_deterministic_witness :
    generate (mkGen idxEmpty true) [pkgA] = generate (mkGen idxEmpty true) [pkgA] :=
  generate_deterministic (mkGen idxEmpty true) (mkGen idxEmpty true) [pkgA] [pkgA] rfl rfl

set_option maxRecDepth 4000 in
/-- C10 counterexample: with two resolved packages sharing one name (versions
1 and 2), the two orders of the input list produce different outputs — the
ordered dict keeps the later entry, so the output depends on delivery order.
The claim as stated, for every resolved package list, is therefore false. -/
theorem generate_order_counterexample :
    (generate (mkGen idxEmpty false) [pkgDup1, pkgDup2]).toOption
      ≠ (generate (mkGen idxEmpty false) [pkgDup2, pkgDup1]).toOption := by decide

/-- C10 amended: for every resolved package list with pairwise-distinct
names (the resolver's documented invariant) and every permutation of it,
generation produces the same output string — the generator sorts the
packages by name before any emission. -/
theorem generate_order_invariant (g : OverlaysGenerator) (pkgs1 pkgs2 : List ResolvedPkg)
    (hperm : pkgs1.Perm pkgs2) (hN : (pkgs1.map (fun p => p.name)).Nodup) :
    generate g pkgs1 = generate g pkgs2 := by
  unfold generate pkgDict
  suffices h : sortedPkgPairs pkgs1 = sortedPkgPairs pkgs2 by rw [h]
  have hpairs : (pkgs1.map (fun p => (p.name, p))).Perm (pkgs2.map (fun p => (p.name, p))) :=
    hperm.map _
  have hperm12 : (sortedPkgPairs pkgs1).Perm (sortedPkgPairs pkgs2) :=
    ((sortedPkgPairs_perm pkgs1).trans hpairs).trans (sortedPkgPairs_perm pkgs2).symm
  have hnames : ∀ pkgs : List ResolvedPkg, (pkgs.map (fun p => p.name)).Nodup →
      ((sortedPkgPairs pkgs).map (fun kv => kv.2.name)).Nodup := by
    intro pkgs hpn
    have h1 : ((sortedPkgPairs pkgs).map (fun kv => kv.2.name)).Perm
        (pkgs.map (fun p => p.name)) := by
      have h2 := (sortedPkgPairs_perm pkgs).map (fun kv : String × ResolvedPkg => kv.2.name)
      rw [List.map_map] at h2
      have h3 : (pkgs.map ((fun kv : String × ResolvedPkg => kv.2.name) ∘ fun p => (p.name, p)))
          = pkgs.map (fun p => p.name) := by
        simp [Function.comp_def]
      rwa [h3] at h2
    exact h1.nodup_iff.mpr hpn
  have hN2 : (pkgs2.map (fun p => p.name)).Nodup := (hperm.map _).nodup_iff.mp hN
  have hsort : ∀ pkgs : List ResolvedPkg, (pkgs.map (fun p => p.name)).Nodup →
      List.Sorted (fun a b : String × ResolvedPkg => pairRel a b ∧ a.2.name ≠ b.2.name)
        (sortedPkgPairs pkgs) := by
    intro pkgs hpn
    have h1 : List.Pairwise pairRel (sortedPkgPairs pkgs) := sortedPkgPairs_sorted pkgs
    have h2 : List.Pairwise (fun a b : String × ResolvedPkg => a.2.name ≠ b.2.name)
        (sortedPkgPairs pkgs) := by
      have := hnames pkgs hpn
      rw [List.Nodup, List.pairwise_map] at this
      exact this
    exact h1.and h2
  haveI : IsAntisymm (String × ResolvedPkg)
      (fun a b : String × ResolvedPkg => pairRel a b ∧ a.2.name ≠ b.2.name) :=
    ⟨fun a b h1 h2 => ((h1.2 (pyLe_antisymm h1.1 h2.1)).elim)⟩
  exact List.eq_of_perm_of_sorted hperm12 (hsort pkgs1 hN) (hsort pkgs2 hN2)

/-- Witness for C10 amended at a concrete permutation of two packages. -/
theorem generate_order_invariant_witness :
    generate (mkGen idxEmpty false) [pkgA, pkgB]
      = generate (mkGen idxEmpty false) [pkgB, pkgA] :=
  generate_order_invariant (mkGen idxEmpty false) [pkgA, pkgB] [pkgB, pkgA]
    (List.Perm.swap pkgB pkgA []) (by decide)

/-- C4 counterexample: the resolved set {G@1.0 root with build-input H} has a
dangling edge (H is not a key of the set), yet with an index in which G
exists unambiguously at its version, G needs no overlay, its inputs are never
resolved, and generation succeeds — it does not fail fast as claimed. -/
theorem missing_dep_counterexample :
    (generate (mkGen idxAll false) [pkgG]).isOk = true := by decide

/-- C4 amended: if a package that requires an overlay has a build-input or
propagated-build-input name that is not a key of the resolved set, generation
fails fast with an error naming a missing dependency name, and produces no
output (the result is `Except.error`, which carries no generated text). -/
theorem missing_dep_fails (g : OverlaysGenerator) (pkgs : List ResolvedPkg)
    (hN : (pkgs.map (fun p => p.name)).Nodup) (p : ResolvedPkg) (hp : p ∈ pkgs)
    (hneed : _needs_overlay g p.name p.ver = true) (b : String)
    (hb : b ∈ p.build_inputs ++ p.prop_build_inputs)
    (hmiss : ∀ q ∈ pkgs, q.name ≠ b) :
    ∃ m, generate g pkgs = Except.error m ∧ ∀ q ∈ pkgs, q.name ≠ m := by
  have hkey : p.name ∈ overlayKeysOf g (pkgDict pkgs) :=
    (mem_overlayKeys g pkgs hN p.name).mpr ⟨p, hp, rfl, hneed⟩
  have hnone : dictGet? (pkgDict pkgs) b = none := (dictGet?_none_iff pkgs hN b).mpr hmiss
  have hpkgerr : ∃ mq, _gen_overlay_pkg g (pkgDict pkgs) (overlayKeysOf g (pkgDict pkgs)) p
      = Except.error mq := by
    unfold _gen_overlay_pkg
    rw [if_pos hkey]
    rcases List.mem_append.mp hb with hb1 | hb2
    · obtain ⟨m1, hm1⟩ := resolve_error_of_missing g (pkgDict pkgs) _ ⟨b, hb1, hnone⟩
      rw [hm1]
      exact ⟨m1, rfl⟩
    · cases hr1 : _resolve_input_refs g (pkgDict pkgs) p.build_inputs with
      | error m1 => exact ⟨m1, rfl⟩
      | ok r1 =>
        obtain ⟨m2, hm2⟩ := resolve_error_of_missing g (pkgDict pkgs) _ ⟨b, hb2, hnone⟩
        rw [hm2]
        exact ⟨m2, rfl⟩
  obtain ⟨mq, hmq⟩ := hpkgerr
  have hpval : p ∈ (pkgDict pkgs).map (fun kv => kv.2) :=
    (pkgDict_values_perm pkgs hN).mem_iff.mpr hp
  obtain ⟨m, hm⟩ := genBlocks_error_of g (pkgDict pkgs) (overlayKeysOf g (pkgDict pkgs))
    ((pkgDict pkgs).map (fun kv => kv.2)) p mq hpval hmq
  have hmmiss : dictGet? (pkgDict pkgs) m = none :=
    genBlocks_error_missing g (pkgDict pkgs) (overlayKeysOf g (pkgDict pkgs)) _ m hm
  refine ⟨m, ?_, (dictGet?_none_iff pkgs hN m).mp hmmiss⟩
  show _gen_python_env g (pkgDict pkgs) = Except.error m
  exact gen_python_env_of_error g (pkgDict pkgs) m (gen_overlays_error g (pkgDict pkgs) _ m hm)

/-- Witness for C4 amended: the spec's scenario (e) with an empty index — G
needs an overlay, H is missing, and generation fails naming a missing
dependency. -/
theorem missing_dep_fails_witness :
    ∃ m, generate (mkGen idxEmpty false) [pkgG] = Except.error m
      ∧ ∀ q ∈ [pkgG], q.name ≠ m :=
  missing_dep_fails (mkGen idxEmpty false) [pkgG] (by decide) pkgG (by decide)
    (by decide) "H" (by decide) (by decide)

-- ===================== Prefix and suffix facts for generated lines =====================

theorem nameLine_pfx_any (t : List Char) (h : t <+: ("          name = \"" : String).data)
    (n v : String) : t <+: (nameLine n v).data := by
  simp only [nameLine, String.data_append, List.append_assoc]
  exact pfx_appR h _

theorem srcLine_pfx_any (t : List Char) (h : t <+: ("          src = fetchPypi \"" : String).data)
    (n v : String) : t <+: (srcLine n v).data := by
  simp only [srcLine, String.data_append, List.append_assoc]
  exact pfx_appR h _

theorem ovBuildLine_pfx_any (t : List Char)
    (h : t <+: ("          buildInputs = oldAttrs.buildInputs ++ [ " : String).data)
    (b : String) : t <+: (ovBuildLine b).data := by
  simp only [ovBuildLine, String.data_append, List.append_assoc]
  exact pfx_appR h _

theorem ovPropLine_pfx_any (t : List Char)
    (h : t <+: ("          propagatedBuildInputs = oldAttrs.propagatedBuildInputs ++ [ " : String).data)
    (b : String) : t <+: (ovPropLine b).data := by
  simp only [ovPropLine, String.data_append, List.append_assoc]
  exact pfx_appR h _

theorem bpBuildLine_pfx_any (t : List Char)
    (h : t <+: ("          buildInputs = [ " : String).data) (b : String) :
    t <+: (bpBuildLine b).data := by
  simp only [bpBuildLine, String.data_append, List.append_assoc]
  exact pfx_appR h _

theorem bpPropLine_pfx_any (t : List Char)
    (h : t <+: ("          propagatedBuildInputs = [ " : String).data) (b : String) :
    t <+: (bpPropLine b).data := by
  simp only [bpPropLine, String.data_append, List.append_assoc]
  exact pfx_appR h _

theorem ovHeadLine_sfx_any (t : List Char)
    (h : t <:+ (".overrideAttrs ( oldAttrs: \x7b" : String).data) (nix : String) :
    t <:+ (ovHeadLine nix).data := by
  simp only [ovHeadLine, String.data_append, List.append_assoc]
  exact sfx_appL (sfx_appL (sfx_appL (sfx_appL h _) _) _) _

theorem bpHeadLine_sfx_any (t : List Char)
    (h : t <:+ (" = python.pkgs.buildPythonPackage \x7b" : String).data) (n : String) :
    t <:+ (bpHeadLine n).data := by
  simp only [bpHeadLine, String.data_append, List.append_assoc]
  exact sfx_appL (sfx_appL h _) _

theorem ovBuildLine_sfx_any (t : List Char) (h : t <:+ (" ];" : String).data) (b : String) :
    t <:+ (ovBuildLine b).data := by
  simp only [ovBuildLine, String.data_append, List.append_assoc]
  exact sfx_appL (sfx_appL h _) _

theorem ovPropLine_sfx_any (t : List Char) (h : t <:+ (" ];" : String).data) (b : String) :
    t <:+ (ovPropLine b).data := by
  simp only [ovPropLine, String.data_append, List.append_assoc]
  exact sfx_appL (sfx_appL h _) _

theorem checks_not_in_ovBodies (g : OverlaysGenerator) (n v nix bi pbi : String)
    (hflag : g.disable_checks = false) (line : String)
    (hline : line = doCheckLine ∨ line = doInstallCheckLine) :
    line ∉ ovBodies g n v nix bi pbi := by
  intro hmem
  simp only [ovBodies, hflag, Bool.false_eq_true, if_false, List.mem_append, mem_ite_list,
    List.mem_cons, List.mem_singleton, List.not_mem_nil, and_false, false_and, or_false,
    false_or, not_false_eq_true, and_true, true_and] at hmem
  rcases hline with rfl | rfl
  · rcases hmem with (((h | h | h) | ⟨-, h⟩) | ⟨-, h⟩) | h
    · exact str_ne_of_sfx (";") ("\x7b") (by decide)
        (ovHeadLine_sfx_any (("\x7b" : String).data) (by decide) nix)
        (by decide) (by decide) h
    · exact str_ne_of_pfx ("          doC") ("          nam") (by decide)
        (nameLine_pfx_any (("          nam" : String).data) (by decide) n v)
        (by decide) (by decide) h
    · exact str_ne_of_pfx ("          doC") ("          src") (by decide)
        (srcLine_pfx_any (("          src" : String).data) (by decide) n v)
        (by decide) (by decide) h
    · exact str_ne_of_pfx ("          doC") ("          bui") (by decide)
        (ovBuildLine_pfx_any (("          bui" : String).data) (by decide) bi)
        (by decide) (by decide) h
    · exact str_ne_of_pfx ("          doC") ("          pro") (by decide)
        (ovPropLine_pfx_any (("          pro" : String).data) (by decide) pbi)
        (by decide) (by decide) h
    · exact absurd h (by decide)
  · rcases hmem with (((h | h | h) | ⟨-, h⟩) | ⟨-, h⟩) | h
    · exact str_ne_of_sfx (";") ("\x7b") (by decide)
        (ovHeadLine_sfx_any (("\x7b" : String).data) (by decide) nix)
        (by decide) (by decide) h
    · exact str_ne_of_pfx ("          doI") ("          nam") (by decide)
        (nameLine_pfx_any (("          nam" : String).data) (by decide) n v)
        (by decide) (by decide) h
    · exact str_ne_of_pfx ("          doI") ("          src") (by decide)
        (srcLine_pfx_any (("          src" : String).data) (by decide) n v)
        (by decide) (by decide) h
    · exact str_ne_of_pfx ("          doI") ("          bui") (by decide)
        (ovBuildLine_pfx_any (("          bui" : String).data) (by decide) bi)
        (by decide) (by decide) h
    · exact str_ne_of_pfx ("          doI") ("          pro") (by decide)
        (ovPropLine_pfx_any (("          pro" : String).data) (by decide) pbi)
        (by decide) (by decide) h
    · exact absurd h (by decide)

theorem checks_not_in_bpBodies (g : OverlaysGenerator) (n v bi pbi : String)
    (hflag : g.disable_checks = false) (line : String)
    (hline : line = doCheckLine ∨ line = doInstallCheckLine) :
    line ∉ bpBodies g n v bi pbi := by
  intro hmem
  simp only [bpBodies, hflag, Bool.false_eq_true, if_false, List.mem_append, mem_ite_list,
    List.mem_cons, List.mem_singleton, List.not_mem_nil, and_false, false_and, or_false,
    false_or, not_false_eq_true, and_true, true_and] at hmem
  rcases hline with rfl | rfl
  · rcases hmem with (((h | h | h) | ⟨-, h⟩) | ⟨-, h⟩) | h
    · exact str_ne_of_sfx (";") ("\x7b") (by decide)
        (bpHeadLine_sfx_any (("\x7b" : String).data) (by decide) n)
        (by decide) (by decide) h
    · exact str_ne_of_pfx ("          doC") ("          nam") (by decide)
        (nameLine_pfx_any (("          nam" : String).data) (by decide) n v)
        (by decide) (by decide) h
    · exact str_ne_of_pfx ("          doC") ("          src") (by decide)
        (srcLine_pfx_any (("          src" : String).data) (by decide) n v)
        (by decide) (by decide) h
    · exact str_ne_of_pfx ("          doC") ("          bui") (by decide)
        (bpBuildLine_pfx_any (("          bui" : String).data) (by decide) bi)
        (by decide) (by decide) h
    · exact str_ne_of_pfx ("          doC") ("          pro") (by decide)
        (bpPropLine_pfx_any (("          pro" : String).data) (by decide) pbi)
        (by decide) (by decide) h
    · exact absurd h (by decide)
  · rcases hmem with (((h | h | h) | ⟨-, h⟩) | ⟨-, h⟩) | h
    · exact str_ne_of_sfx (";") ("\x7b") (by decide)
        (bpHeadLine_sfx_any (("\x7b" : String).data) (by decide) n)
        (by decide) (by decide) h
    · exact str_ne_of_pfx ("          doI") ("          nam") (by decide)
        (nameLine_pfx_any (("          nam" : String).data) (by decide) n v)
        (by decide) (by decide) h
    · exact str_ne_of_pfx ("          doI") ("          src") (by decide)
        (srcLine_pfx_any (("          src" : String).data) (by decide) n v)
        (by decide) (by decide) h
    · exact str_ne_of_pfx ("          doI") ("          bui") (by decide)
        (bpBuildLine_pfx_any (("          bui" : String).data) (by decide) bi)
        (by decide) (by decide) h
    · exact str_ne_of_pfx ("          doI") ("          pro") (by decide)
        (bpPropLine_pfx_any (("          pro" : String).data) (by decide) pbi)
        (by decide) (by decide) h
    · exact absurd h (by decide)

/-- C7 counterexample: with the disable-checks flag off, a package whose name
embeds newline characters followed by the directive text makes the generated
output contain both check-disabling directive lines — so the claim, stated
over every resolved package set, fails (the generator performs no escaping). -/
theorem check_directive_counterexample :
    (mkGen idxEmpty false).disable_checks = false
    ∧ okHasLine (generate (mkGen idxEmpty false) [pkgEvil]) doCheckLine
    ∧ okHasLine (generate (mkGen idxEmpty false) [pkgEvil]) doInstallCheckLine := by decide

/-- C7 amended: for blocks generated from newline-free name, version,
identifier and input-list strings: when the disable-checks flag is set, every
override block and every fresh block contains both the test-disabling
directive line and the install-check-disabling directive line; when the flag
is not set, neither directive line appears in any such block. -/
theorem check_directive_propagation (g : OverlaysGenerator)
    (name ver nix_name bi pbi : String) (hn : noNl name) (hv : noNl ver)
    (hx : noNl nix_name) (hb : noNl bi) (hp : noNl pbi) :
    (g.disable_checks = true →
      hasLine (_gen_overrideAttrs g name ver nix_name bi pbi) doCheckLine
      ∧ hasLine (_gen_overrideAttrs g name ver nix_name bi pbi) doInstallCheckLine
      ∧ hasLine (_gen_builPythonPackage g name ver bi pbi) doCheckLine
      ∧ hasLine (_gen_builPythonPackage g name ver bi pbi) doInstallCheckLine)
    ∧ (g.disable_checks = false →
      ¬ hasLine (_gen_overrideAttrs g name ver nix_name bi pbi) doCheckLine
      ∧ ¬ hasLine (_gen_overrideAttrs g name ver nix_name bi pbi) doInstallCheckLine
      ∧ ¬ hasLine (_gen_builPythonPackage g name ver bi pbi) doCheckLine
      ∧ ¬ hasLine (_gen_builPythonPackage g name ver bi pbi) doInstallCheckLine) := by
  constructor
  · intro hflag
    refine ⟨?_, ?_, ?_, ?_⟩
    · rw [hasLine_overrideAttrs g name ver nix_name bi pbi hn hv hx hb hp]
      simp [ovBodies, hflag]
    · rw [hasLine_overrideAttrs g name ver nix_name bi pbi hn hv hx hb hp]
      simp [ovBodies, hflag]
    · rw [hasLine_builPythonPackage g name ver bi pbi hn hv hb hp]
      simp [bpBodies, hflag]
    · rw [hasLine_builPythonPackage g name ver bi pbi hn hv hb hp]
      simp [bpBodies, hflag]
  · intro hflag
    refine ⟨?_, ?_, ?_, ?_⟩
    · rw [hasLine_overrideAttrs g name ver nix_name bi pbi hn hv hx hb hp]
      exact checks_not_in_ovBodies g name ver nix_name bi pbi hflag _ (Or.inl rfl)
    · rw [hasLine_overrideAttrs g name ver nix_name bi pbi hn hv hx hb hp]
      exact checks_not_in_ovBodies g name ver nix_name bi pbi hflag _ (Or.inr rfl)
    · rw [hasLine_builPythonPackage g name ver bi pbi hn hv hb hp]
      exact checks_not_in_bpBodies g name ver bi pbi hflag _ (Or.inl rfl)
    · rw [hasLine_builPythonPackage g name ver bi pbi hn hv hb hp]
      exact checks_not_in_bpBodies g name ver bi pbi hflag _ (Or.inr rfl)

/-- Witness for C7 amended at concrete newline-free arguments. -/
theorem check_directive_propagation_witness :
    ((mkGen idxEmpty true).disable_checks = true →
      hasLine (_gen_overrideAttrs (mkGen idxEmpty true) "A" "1.0" "A" "" "") doCheckLine
      ∧ hasLine (_gen_overrideAttrs (mkGen idxEmpty true) "A" "1.0" "A" "" "") doInstallCheckLine
      ∧ hasLine (_gen_builPythonPackage (mkGen idxEmpty true) "A" "1.0" "" "") doCheckLine
      ∧ hasLine (_gen_builPythonPackage (mkGen idxEmpty true) "A" "1.0" "" "") doInstallCheckLine)
    ∧ ((mkGen idxEmpty true).disable_checks = false →
      ¬ hasLine (_gen_overrideAttrs (mkGen idxEmpty true) "A" "1.0" "A" "" "") doCheckLine
      ∧ ¬ hasLine (_gen_overrideAttrs (mkGen idxEmpty true) "A" "1.0" "A" "" "") doInstallCheckLine
      ∧ ¬ hasLine (_gen_builPythonPackage (mkGen idxEmpty true) "A" "1.0" "" "") doCheckLine
      ∧ ¬ hasLine (_gen_builPythonPackage (mkGen idxEmpty true) "A" "1.0" "" "") doInstallCheckLine) :=
  check_directive_propagation (mkGen idxEmpty true) "A" "1.0" "A" "" ""
    (by decide) (by decide) (by decide) (by decide) (by decide)

theorem ovBuild_not_in_ovBodies (g : OverlaysGenerator) (n v nix pbi : String) (b : String) :
    ovBuildLine b ∉ ovBodies g n v nix "" pbi := by
  intro hmem
  simp only [ovBodies, List.mem_append, mem_ite_list, List.mem_cons, List.mem_singleton,
    List.not_mem_nil, ne_eq, not_true_eq_false, false_and, and_false, or_false, false_or,
    not_false_eq_true, and_true, true_and] at hmem
  rcases hmem with (((h | h | h) | ⟨-, h⟩) | ⟨-, h | h⟩) | h
  · exact str_ne_of_sfx (";") ("\x7b") (ovBuildLine_sfx_any ((";" : String).data) (by decide) b)
      (ovHeadLine_sfx_any (("\x7b" : String).data) (by decide) nix) (by decide) (by decide) h
  · exact str_ne_of_pfx ("          bui") ("          nam")
      (ovBuildLine_pfx_any (("          bui" : String).data) (by decide) b)
      (nameLine_pfx_any (("          nam" : String).data) (by decide) n v)
      (by decide) (by decide) h
  · exact str_ne_of_pfx ("          bui") ("          src")
      (ovBuildLine_pfx_any (("          bui" : String).data) (by decide) b)
      (srcLine_pfx_any (("          src" : String).data) (by decide) n v)
      (by decide) (by decide) h
  · exact str_ne_of_pfx ("          bui") ("          pro")
      (ovBuildLine_pfx_any (("          bui" : String).data) (by decide) b)
      (ovPropLine_pfx_any (("          pro" : String).data) (by decide) pbi)
      (by decide) (by decide) h
  · exact str_ne_of_pfx ("          bui") ("          doC")
      (ovBuildLine_pfx_any (("          bui" : String).data) (by decide) b)
      (by decide) (by decide) (by decide) h
  · exact str_ne_of_pfx ("          bui") ("          doI")
      (ovBuildLine_pfx_any (("          bui" : String).data) (by decide) b)
      (by decide) (by decide) (by decide) h
  · exact str_ne_of_pfx ("          b") ("        \x7d);")
      (ovBuildLine_pfx_any (("          b" : String).data) (by decide) b)
      (by decide) (by decide) (by decide) h

theorem ovProp_not_in_ovBodies (g : OverlaysGenerator) (n v nix bi : String) (b : String) :
    ovPropLine b ∉ ovBodies g n v nix bi "" := by
  intro hmem
  simp only [ovBodies, List.mem_append, mem_ite_list, List.mem_cons, List.mem_singleton,
    List.not_mem_nil, ne_eq, not_true_eq_false, false_and, and_false, or_false, false_or,
    not_false_eq_true, and_true, true_and] at hmem
  rcases hmem with (((h | h | h) | ⟨-, h⟩) | ⟨-, h | h⟩) | h
  · exact str_ne_of_sfx (";") ("\x7b") (ovPropLine_sfx_any ((";" : String).data) (by decide) b)
      (ovHeadLine_sfx_any (("\x7b" : String).data) (by decide) nix) (by decide) (by decide) h
  · exact str_ne_of_pfx ("          pro") ("          nam")
      (ovPropLine_pfx_any (("          pro" : String).data) (by decide) b)
      (nameLine_pfx_any (("          nam" : String).data) (by decide) n v)
      (by decide) (by decide) h
  · exact str_ne_of_pfx ("          pro") ("          src")
      (ovPropLine_pfx_any (("          pro" : String).data) (by decide) b)
      (srcLine_pfx_any (("          src" : String).data) (by decide) n v)
      (by decide) (by decide) h
  · exact str_ne_of_pfx ("          pro") ("          bui")
      (ovPropLine_pfx_any (("          pro" : String).data) (by decide) b)
      (ovBuildLine_pfx_any (("          bui" : String).data) (by decide) bi)
      (by decide) (by decide) h
  · exact str_ne_of_pfx ("          pro") ("          doC")
      (ovPropLine_pfx_any (("          pro" : String).data) (by decide) b)
      (by decide) (by decide) (by decide) h
  · exact str_ne_of_pfx ("          pro") ("          doI")
      (ovPropLine_pfx_any (("          pro" : String).data) (by decide) b)
      (by decide) (by decide) (by decide) h
  · exact str_ne_of_pfx ("          p") ("        \x7d);")
      (ovPropLine_pfx_any (("          p" : String).data) (by decide) b)
      (by decide) (by decide) (by decide) h

theorem noNl_of_noBrk {s : String} (h : noBrk s) : noNl s := fun hmem =>
  absurd (h '\n' hmem) (by decide)

set_option maxRecDepth 4000 in
/-- C8 counterexample to the unrestricted claim: a package whose name carries
a newline takes the override path and its overlay entry is generated, yet the
block does not contain the name+version label (and is not keyed by the intact
canonical identifier): `unindent` splits the f-string at the injected newline
and drops four characters from the continuation, mangling the line.  Only the
newline break character is involved, where the `splitKE` model of
`splitlines` is exact. -/
theorem override_block_counterexample :
    (_gen_overlay_pkg (mkGen idxNl false) (pkgDict [pkgNl])
        (overlayKeysOf (mkGen idxNl false) (pkgDict [pkgNl])) pkgNl).isOk = true
    ∧ ((_gen_overlay_pkg (mkGen idxNl false) (pkgDict [pkgNl])
        (overlayKeysOf (mkGen idxNl false) (pkgDict [pkgNl])) pkgNl).map
      (fun s => decide (occursIn (nameLine pkgNl.name pkgNl.ver) s)))
      = Except.ok false := by decide

/-- C8 amended: for an overlaid package that exists in the index, the
generator emits an override block via `_gen_overrideAttrs`, keyed by the
index's canonical identifier `find_best_nixpkgs_candidate(name, ver)`, with
the rendered input lists stripped exactly as Python's `str.strip()` does;
and for every name, version, identifier and input strings free of Python's
line-break characters (`noBrk`; without that restriction the claim fails,
see the counterexample): the block's head line is keyed by the canonical
identifier, the block contains the replaced name+version label line and the
replaced source-fetch line pointing at the resolver-selected name and
version, and the build-input (resp. propagated-build-input) line is present
exactly when the rendered input list is non-empty, its text appending onto
the base recipe's existing list (`oldAttrs.buildInputs ++ [ ... ]`) rather
than replacing it. -/
theorem override_block_shape (g : OverlaysGenerator) (pkgs : List (String × ResolvedPkg))
    (keys : List String) (pkg : ResolvedPkg) (hk : pkg.name ∈ keys)
    (hbi : ∀ b ∈ pkg.build_inputs, (dictGet? pkgs b).isSome = true)
    (hpbi : ∀ b ∈ pkg.prop_build_inputs, (dictGet? pkgs b).isSome = true)
    (hex : g.nixpkgs.exists1 pkg.name = true) :
    (_gen_overlay_pkg g pkgs keys pkg = Except.ok
      (_gen_overrideAttrs g pkg.name pkg.ver
        (g.nixpkgs.find_best_nixpkgs_candidate pkg.name pkg.ver)
        (pyStrip (_gen_build_inputs
          (inputsLocal keys (pkg.build_inputs.map (refName g pkgs)))
          (inputsFromIndex keys (pkg.build_inputs.map (refName g pkgs)))))
        (pyStrip (_gen_prop_build_inputs
          (inputsLocal keys (pkg.prop_build_inputs.map (refName g pkgs)))
          (inputsFromIndex keys (pkg.prop_build_inputs.map (refName g pkgs)))))
      ++ _gen_unify_nixpkgs_keys (_get_ref_name g pkg.name pkg.ver)
        (sortStr ((g.nixpkgs.get_all_candidates pkg.name).filter
          (fun k => decide (k ≠ _get_ref_name g pkg.name pkg.ver))))))
    ∧ ∀ n v nix bi pbi : String, noBrk n → noBrk v → noBrk nix → noBrk bi → noBrk pbi →
        hasLine (_gen_overrideAttrs g n v nix bi pbi) (ovHeadLine nix)
        ∧ hasLine (_gen_overrideAttrs g n v nix bi pbi) (nameLine n v)
        ∧ hasLine (_gen_overrideAttrs g n v nix bi pbi) (srcLine n v)
        ∧ (bi ≠ "" → hasLine (_gen_overrideAttrs g n v nix bi pbi) (ovBuildLine bi))
        ∧ (bi = "" → ∀ b, ¬ hasLine (_gen_overrideAttrs g n v nix bi pbi) (ovBuildLine b))
        ∧ (pbi ≠ "" → hasLine (_gen_overrideAttrs g n v nix bi pbi) (ovPropLine pbi))
        ∧ (pbi = "" → ∀ b, ¬ hasLine (_gen_overrideAttrs g n v nix bi pbi) (ovPropLine b)) := by
  constructor
  · exact gen_overlay_pkg_override g pkgs keys pkg hk hbi hpbi hex
  · intro n v nix bi pbi hbn hbv hbx hbb hbp
    have hn := noNl_of_noBrk hbn
    have hv := noNl_of_noBrk hbv
    have hx := noNl_of_noBrk hbx
    have hb := noNl_of_noBrk hbb
    have hp := noNl_of_noBrk hbp
    refine ⟨?_, ?_, ?_, ?_, ?_, ?_, ?_⟩
    · rw [hasLine_overrideAttrs g n v nix bi pbi hn hv hx hb hp]
      simp [ovBodies]
    · rw [hasLine_overrideAttrs g n v nix bi pbi hn hv hx hb hp]
      simp [ovBodies]
    · rw [hasLine_overrideAttrs g n v nix bi pbi hn hv hx hb hp]
      simp [ovBodies]
    · intro hne
      rw [hasLine_overrideAttrs g n v nix bi pbi hn hv hx hb hp]
      simp [ovBodies, hne]
    · intro he b
      subst he
      rw [hasLine_overrideAttrs g n v nix "" pbi hn hv hx hb hp]
      exact ovBuild_not_in_ovBodies g n v nix pbi b
    · intro hne
      rw [hasLine_overrideAttrs g n v nix bi pbi hn hv hx hb hp]
      simp [ovBodies, hne]
    · intro he b
      subst he
      rw [hasLine_overrideAttrs g n v nix bi "" hn hv hx hb hp]
      exact ovProp_not_in_ovBodies g n v nix bi b

/-- Witness for C8 at the spec's scenario (b): B exists in the index with
canonical identifier idA; its overlay entry is generated successfully, and
the override-block head line is keyed by the given identifier. -/
theorem override_block_shape_witness :
    (_gen_overlay_pkg (mkGen idxB false) (pkgDict [pkgB])
      (overlayKeysOf (mkGen idxB false) (pkgDict [pkgB])) pkgB).isOk = true
    ∧ hasLine (_gen_overrideAttrs (mkGen idxB false) "B" "2.0" "idA" "" "")
        (ovHeadLine "idA") := by
  have h := override_block_shape (mkGen idxB false) (pkgDict [pkgB])
    (overlayKeysOf (mkGen idxB false) (pkgDict [pkgB])) pkgB
    (by decide) (by decide) (by decide) (by decide)
  constructor
  · rw [h.1]
    rfl
  · exact (h.2 "B" "2.0" "idA" "" "" (by decide) (by decide) (by decide) (by decide)
      (by decide)).1

theorem occursIn_joinSep (x : String) : ∀ l : List String, x ∈ l → occursIn x (joinSep l) := by
  intro l
  induction l with
  | nil => intro h; exact absurd h (List.not_mem_nil x)
  | cons y rest ih =>
    intro h
    cases rest with
    | nil =>
      obtain rfl : x = y := by simpa using h
      exact occursIn_refl x
    | cons z rs =>
      show occursIn x ((y ++ " ") ++ joinSep (z :: rs))
      rcases List.mem_cons.mp h with rfl | hr
      · exact occursIn_appendR _ _ _ (occursIn_self_append x " ")
      · exact occursIn_appendL _ _ _ (ih hr)

theorem prop_inputs_renderer_eq (a b : List String) :
    _gen_prop_build_inputs a b = _gen_build_inputs a b := rfl

theorem build_inputs_membership (keys refs : List String) (r : String) (hr : r ∈ refs) :
    (r ∈ keys → r ∈ sortStr (inputsLocal keys refs)
      ∧ occursIn r (_gen_build_inputs (inputsLocal keys refs) (inputsFromIndex keys refs)))
    ∧ (r ∉ keys →
      ("python-self." ++ r) ∈ (sortStr (inputsFromIndex keys refs)).map
          (fun b => "python-self." ++ b)
      ∧ occursIn ("python-self." ++ r)
          (_gen_build_inputs (inputsLocal keys refs) (inputsFromIndex keys refs))) := by
  constructor
  · intro hin
    have hloc : r ∈ inputsLocal keys refs := by
      unfold inputsLocal
      rw [List.mem_dedup, List.mem_filter]
      exact ⟨hr, by simpa using hin⟩
    have hsort : r ∈ sortStr (inputsLocal keys refs) := mem_sortStr.mpr hloc
    refine ⟨hsort, ?_⟩
    unfold _gen_build_inputs
    exact occursIn_appendR _ _ _ (occursIn_appendR _ _ _ (occursIn_joinSep r _ hsort))
  · intro hout
    have hnotloc : r ∉ inputsLocal keys refs := by
      intro hmem
      unfold inputsLocal at hmem
      rw [List.mem_dedup, List.mem_filter] at hmem
      exact hout (by simpa using hmem.2)
    have hfi : r ∈ inputsFromIndex keys refs := by
      unfold inputsFromIndex
      rw [List.mem_filter, List.mem_dedup]
      exact ⟨hr, by simpa using hnotloc⟩
    have hsort : r ∈ sortStr (inputsFromIndex keys refs) := mem_sortStr.mpr hfi
    have hmap : ("python-self." ++ r) ∈ (sortStr (inputsFromIndex keys refs)).map
        (fun b => "python-self." ++ b) := List.mem_map_of_mem _ hsort
    refine ⟨hmap, ?_⟩
    unfold _gen_build_inputs
    exact occursIn_appendL _ _ _ (occursIn_joinSep _ _ hmap)

/-- C9: within an overlaid package's generated block, each resolved input-set
reference that is itself an overlay key is rendered unprefixed (it appears
bare among the sorted local references of the rendered input list), and each
reference drawn from the index is rendered with the `python-self.` namespace
prefix; packages outside the overlay key set are skipped and contribute no
block at all. -/
theorem input_ref_prefixing (g : OverlaysGenerator) (pkgs : List (String × ResolvedPkg))
    (keys : List String) (pkg : ResolvedPkg) (hk : pkg.name ∈ keys)
    (hbi : ∀ b ∈ pkg.build_inputs, (dictGet? pkgs b).isSome = true)
    (hpbi : ∀ b ∈ pkg.prop_build_inputs, (dictGet? pkgs b).isSome = true) :
    (∃ blk, _gen_overlay_pkg g pkgs keys pkg = Except.ok blk)
    ∧ (∀ q ∈ pkgs.map (fun kv => kv.2), q.name ∉ keys →
        _gen_overlay_pkg g pkgs keys q = Except.ok (""))
    ∧ (∀ r ∈ pkg.build_inputs.map (refName g pkgs),
        (r ∈ keys → r ∈ sortStr (inputsLocal keys (pkg.build_inputs.map (refName g pkgs)))
          ∧ occursIn r (_gen_build_inputs
              (inputsLocal keys (pkg.build_inputs.map (refName g pkgs)))
              (inputsFromIndex keys (pkg.build_inputs.map (refName g pkgs)))))
        ∧ (r ∉ keys →
          ("python-self." ++ r) ∈ (sortStr (inputsFromIndex keys
              (pkg.build_inputs.map (refName g pkgs)))).map (fun b => "python-self." ++ b)
          ∧ occursIn ("python-self." ++ r) (_gen_build_inputs
              (inputsLocal keys (pkg.build_inputs.map (refName g pkgs)))
              (inputsFromIndex keys (pkg.build_inputs.map (refName g pkgs))))))
    ∧ (∀ r ∈ pkg.prop_build_inputs.map (refName g pkgs),
        (r ∈ keys → r ∈ sortStr (inputsLocal keys (pkg.prop_build_inputs.map (refName g pkgs)))
          ∧ occursIn r (_gen_prop_build_inputs
              (inputsLocal keys (pkg.prop_build_inputs.map (refName g pkgs)))
              (inputsFromIndex keys (pkg.prop_build_inputs.map (refName g pkgs)))))
        ∧ (r ∉ keys →
          ("python-self." ++ r) ∈ (sortStr (inputsFromIndex keys
              (pkg.prop_build_inputs.map (refName g pkgs)))).map (fun b => "python-self." ++ b)
          ∧ occursIn ("python-self." ++ r) (_gen_prop_build_inputs
              (inputsLocal keys (pkg.prop_build_inputs.map (refName g pkgs)))
              (inputsFromIndex keys (pkg.prop_build_inputs.map (refName g pkgs)))))) := by
  refine ⟨gen_overlay_pkg_ok g pkgs keys pkg hbi hpbi, ?_, ?_, ?_⟩
  · intro q _ hq
    exact gen_overlay_pkg_skip g pkgs keys q hq
  · intro r hr
    exact build_inputs_membership keys _ r hr
  · intro r hr
    rw [prop_inputs_renderer_eq]
    exact build_inputs_membership keys _ r hr

/-- Witness for C9 at the spec's scenario (d): E is overlaid, its build input
F resolves to the index identifier F, which is not an overlay key and is
rendered with the `python-self.` prefix; F itself contributes no block. -/
theorem input_ref_prefixing_witness :
    (_gen_overlay_pkg (mkGen idxD false) (pkgDict [pkgE, pkgF])
        (overlayKeysOf (mkGen idxD false) (pkgDict [pkgE, pkgF])) pkgE).isOk = true
    ∧ _gen_overlay_pkg (mkGen idxD false) (pkgDict [pkgE, pkgF])
        (overlayKeysOf (mkGen idxD false) (pkgDict [pkgE, pkgF])) pkgF = Except.ok ("")
    ∧ occursIn ("python-self." ++ "F")
        (_gen_build_inputs
          (inputsLocal (overlayKeysOf (mkGen idxD false) (pkgDict [pkgE, pkgF]))
            (pkgE.build_inputs.map (refName (mkGen idxD false) (pkgDict [pkgE, pkgF]))))
          (inputsFromIndex (overlayKeysOf (mkGen idxD false) (pkgDict [pkgE, pkgF]))
            (pkgE.build_inputs.map (refName (mkGen idxD false) (pkgDict [pkgE, pkgF]))))) := by
  have h := input_ref_prefixing (mkGen idxD false) (pkgDict [pkgE, pkgF])
    (overlayKeysOf (mkGen idxD false) (pkgDict [pkgE, pkgF])) pkgE
    (by decide) (by decide) (by decide)
  refine ⟨?_, ?_, ?_⟩
  · obtain ⟨blk, hblk⟩ := h.1
    rw [hblk]
    rfl
  · exact h.2.1 pkgF (by decide) (by decide)
  · exact ((h.2.2.1 "F" (by decide)).2 (by decide)).2

-- ===================== Helpers for C3 and C6 =====================

theorem generate_def (g : OverlaysGenerator) (pkgs : List ResolvedPkg) :
    generate g pkgs = _gen_python_env g (pkgDict pkgs) := rfl

theorem get_ref_name_of_exists (g : OverlaysGenerator) (name ver : String)
    (h : g.nixpkgs.exists1 name = true) :
    _get_ref_name g name ver = g.nixpkgs.find_best_nixpkgs_candidate name ver := by
  unfold _get_ref_name
  rw [if_pos h]

theorem generate_ok_of (g : OverlaysGenerator) (pkgs : List ResolvedPkg)
    (hN : (pkgs.map (fun p => p.name)).Nodup) (hdeps : depsClosed pkgs) :
    ∃ body hd tl,
      genOverlayBlocks g (pkgDict pkgs) (overlayKeysOf g (pkgDict pkgs))
        ((pkgDict pkgs).map (fun kv => kv.2)) = Except.ok body
      ∧ generate g pkgs = Except.ok
          (_gen_imports g ++ (hd ++ body ++ tl)
            ++ envExprOf g (pkgNamesOf g (pkgDict pkgs))) := by
  have hall : ∀ q ∈ (pkgDict pkgs).map (fun kv => kv.2),
      ∃ blk, _gen_overlay_pkg g (pkgDict pkgs) (overlayKeysOf g (pkgDict pkgs)) q
        = Except.ok blk := by
    intro q hq
    have hqpkgs : q ∈ pkgs := (pkgDict_values_perm pkgs hN).mem_iff.mp hq
    refine gen_overlay_pkg_ok g _ _ q ?_ ?_
    · intro b hb
      exact dictGet?_isSome_of pkgs hN (hdeps q hqpkgs b (List.mem_append_left _ hb))
    · intro b hb
      exact dictGet?_isSome_of pkgs hN (hdeps q hqpkgs b (List.mem_append_right _ hb))
  obtain ⟨body, hbody⟩ := genBlocks_ok g _ _ _ hall
  obtain ⟨hd, tl, hov⟩ := gen_overlays_ok g _ _ body hbody
  refine ⟨body, hd, tl, hbody, ?_⟩
  rw [generate_def]
  exact gen_python_env_of_ok g _ _ hov

theorem filter_snd_map (d : List (String × ResolvedPkg)) (F : ResolvedPkg → String) :
    (d.filter (fun kv => kv.2.is_root)).map (fun kv => F kv.2)
      = ((d.map (fun kv => kv.2)).filter (fun q => q.is_root)).map F := by
  induction d with
  | nil => rfl
  | cons kv rest ih =>
    by_cases h : kv.2.is_root <;> simp [h, ih]

theorem idxB_wf : IndexWF idxB := by
  constructor
  · intro n
    by_cases h : n = "B" <;> simp [idxB, h]
  · intro n
    by_cases h : n = "B" <;> simp [idxB, h]
  · intro n v hex
    by_cases h : n = "B"
    · simp [idxB, h]
    · exact absurd hex (by simp [idxB, h])
  · intro n
    by_cases h : n = "B" <;> simp [idxB, h]

/-- C3: for a resolved package whose name has more than one index identifier,
the generated output contains exactly one entry for that name (the dict holds
it once and its loop iteration emits one override block), the block is an
override block followed by the key-unification section, the unification
section is exactly one alias line per colliding identifier other than the
canonical one, the alias keys are sorted and duplicate-free, and no
identifier is aliased to itself (the canonical key never appears among the
alias keys). -/
theorem collision_safety (g : OverlaysGenerator) (pkgs : List ResolvedPkg)
    (hN : (pkgs.map (fun p => p.name)).Nodup) (hWF : IndexWF g.nixpkgs)
    (hdeps : depsClosed pkgs) (p : ResolvedPkg) (hp : p ∈ pkgs)
    (hmult : 2 ≤ (g.nixpkgs.get_all_candidates p.name).length) :
    ((pkgDict pkgs).map (fun kv => kv.2.name)).count p.name = 1
    ∧ (∃ s bi pbi, generate g pkgs = Except.ok s
        ∧ _gen_overlay_pkg g (pkgDict pkgs) (overlayKeysOf g (pkgDict pkgs)) p
            = Except.ok (_gen_overrideAttrs g p.name p.ver
                (g.nixpkgs.find_best_nixpkgs_candidate p.name p.ver) bi pbi
              ++ _gen_unify_nixpkgs_keys
                (g.nixpkgs.find_best_nixpkgs_candidate p.name p.ver)
                (sortStr ((g.nixpkgs.get_all_candidates p.name).filter
                  (fun k => decide (k ≠ g.nixpkgs.find_best_nixpkgs_candidate p.name p.ver)))))
        ∧ occursIn (_gen_overrideAttrs g p.name p.ver
                (g.nixpkgs.find_best_nixpkgs_candidate p.name p.ver) bi pbi
              ++ _gen_unify_nixpkgs_keys
                (g.nixpkgs.find_best_nixpkgs_candidate p.name p.ver)
                (sortStr ((g.nixpkgs.get_all_candidates p.name).filter
                  (fun k => decide (k ≠ g.nixpkgs.find_best_nixpkgs_candidate p.name p.ver)))))
            s)
    ∧ _gen_unify_nixpkgs_keys (g.nixpkgs.find_best_nixpkgs_candidate p.name p.ver)
        (sortStr ((g.nixpkgs.get_all_candidates p.name).filter
          (fun k => decide (k ≠ g.nixpkgs.find_best_nixpkgs_candidate p.name p.ver))))
      = pyConcat ((sortStr ((g.nixpkgs.get_all_candidates p.name).filter
          (fun k => decide (k ≠ g.nixpkgs.find_best_nixpkgs_candidate p.name p.ver)))).map
          (fun k => aliasLine k (g.nixpkgs.find_best_nixpkgs_candidate p.name p.ver) ++ "\n"))
    ∧ (sortStr ((g.nixpkgs.get_all_candidates p.name).filter
        (fun k => decide (k ≠ g.nixpkgs.find_best_nixpkgs_candidate p.name p.ver)))).Nodup
    ∧ List.Sorted pyLe (sortStr ((g.nixpkgs.get_all_candidates p.name).filter
        (fun k => decide (k ≠ g.nixpkgs.find_best_nixpkgs_candidate p.name p.ver))))
    ∧ g.nixpkgs.find_best_nixpkgs_candidate p.name p.ver
        ∉ sortStr ((g.nixpkgs.get_all_candidates p.name).filter
          (fun k => decide (k ≠ g.nixpkgs.find_best_nixpkgs_candidate p.name p.ver)))
    ∧ (∀ k, k ∈ sortStr ((g.nixpkgs.get_all_candidates p.name).filter
          (fun k => decide (k ≠ g.nixpkgs.find_best_nixpkgs_candidate p.name p.ver)))
        ↔ k ∈ g.nixpkgs.get_all_candidates p.name
          ∧ k ≠ g.nixpkgs.find_best_nixpkgs_candidate p.name p.ver)
    ∧ (sortStr ((g.nixpkgs.get_all_candidates p.name).filter
        (fun k => decide (k ≠ g.nixpkgs.find_best_nixpkgs_candidate p.name p.ver)))).length
      = (g.nixpkgs.get_all_candidates p.name).length - 1 := by
  have hex : g.nixpkgs.exists1 p.name = true := by
    apply (hWF.exists1_iff p.name).mpr
    intro h0
    rw [h0] at hmult
    simp at hmult
  have hmult2 : g.nixpkgs.has_multiple_candidates p.name = true :=
    (hWF.mult_iff p.name).mpr hmult
  have hneed : _needs_overlay g p.name p.ver = true := by
    unfold _needs_overlay
    rw [hmult2]
    simp
  have hkey : p.name ∈ overlayKeysOf g (pkgDict pkgs) :=
    (mem_overlayKeys g pkgs hN p.name).mpr ⟨p, hp, rfl, hneed⟩
  have hbi : ∀ b ∈ p.build_inputs, (dictGet? (pkgDict pkgs) b).isSome = true := fun b hb =>
    dictGet?_isSome_of pkgs hN (hdeps p hp b (List.mem_append_left _ hb))
  have hpbi : ∀ b ∈ p.prop_build_inputs, (dictGet? (pkgDict pkgs) b).isSome = true := fun b hb =>
    dictGet?_isSome_of pkgs hN (hdeps p hp b (List.mem_append_right _ hb))
  have hover := gen_overlay_pkg_override g (pkgDict pkgs) (overlayKeysOf g (pkgDict pkgs))
    p hkey hbi hpbi hex
  rw [get_ref_name_of_exists g p.name p.ver hex] at hover
  have hfMem : g.nixpkgs.find_best_nixpkgs_candidate p.name p.ver
      ∈ g.nixpkgs.get_all_candidates p.name := hWF.find_best_mem p.name p.ver hex
  have hnd := hWF.candidates_nodup p.name
  have hmemO : ∀ k, k ∈ sortStr ((g.nixpkgs.get_all_candidates p.name).filter
        (fun k => decide (k ≠ g.nixpkgs.find_best_nixpkgs_candidate p.name p.ver)))
      ↔ k ∈ g.nixpkgs.get_all_candidates p.name
        ∧ k ≠ g.nixpkgs.find_best_nixpkgs_candidate p.name p.ver := by
    intro k
    rw [mem_sortStr, List.mem_filter]
    simp
  refine ⟨?_, ?_, unify_eq_concat _ _,
    sortStr_nodup (hnd.filter _), sortStr_sorted _, ?_, hmemO, ?_⟩
  · have hperm := (pkgDict_values_perm pkgs hN).map (fun q => q.name)
    rw [List.map_map] at hperm
    simp only [Function.comp_def] at hperm
    rw [hperm.count_eq]
    exact List.count_eq_one_of_mem hN (List.mem_map_of_mem (fun p => p.name) hp)
  · obtain ⟨body, hd, tl, hbody, hsgen⟩ := generate_ok_of g pkgs hN hdeps
    refine ⟨_, _, _, hsgen, hover, ?_⟩
    have h1 := genBlocks_infix g (pkgDict pkgs) (overlayKeysOf g (pkgDict pkgs)) _ body p _
      hbody ((pkgDict_values_perm pkgs hN).mem_iff.mpr hp) hover
    exact occursIn_appendR _ _ _
      (occursIn_appendL _ _ _ (occursIn_appendR _ _ _ (occursIn_appendL _ _ _ h1)))
  · intro hmem
    exact ((hmemO _).mp hmem).2 rfl
  · rw [(sortStr_perm _).length_eq]
    have hfe : (g.nixpkgs.get_all_candidates p.name).filter
        (fun k => decide (k ≠ g.nixpkgs.find_best_nixpkgs_candidate p.name p.ver))
        = (g.nixpkgs.get_all_candidates p.name).erase
            (g.nixpkgs.find_best_nixpkgs_candidate p.name p.ver) := by
      rw [List.Nodup.erase_eq_filter hnd]
      apply List.filter_congr
      intro x _
      by_cases hx : x = g.nixpkgs.find_best_nixpkgs_candidate p.name p.ver <;> simp [hx]
    rw [hfe]
    exact List.length_erase_of_mem hfMem

/-- Witness for C3 at the spec's scenario (b): B has the two index
identifiers idA and idB; the resolved set {B@2.0} occurs once in the dict and
generation succeeds. -/
theorem collision_safety_witness :
    ((pkgDict [pkgB]).map (fun kv => kv.2.name)).count pkgB.name = 1
    ∧ (generate (mkGen idxB false) [pkgB]).isOk = true := by
  have h := collision_safety (mkGen idxB false) [pkgB] (by decide) idxB_wf
    (by intro p hp b hb
        rw [List.mem_singleton] at hp
        subst hp
        simp [pkgB] at hb)
    pkgB (by decide) (by decide)
  refine ⟨h.1, ?_⟩
  obtain ⟨s, bi, pbi, hs, -, -⟩ := h.2.1
  rw [hs]
  rfl

/-- C6: root completeness.  For every resolved package list satisfying the
data-model invariants (unique names, no dangling input edge), generation
succeeds and its output ends with the trailing environment expression
`envExprOf` built over `pkg_names`; that `pkg_names` string is exactly the
concatenation, one per line, of the reference-resolver image
`_get_ref_name` of the root-flagged packages; those packages are exactly
the root-flagged members of the resolved set, their names are pairwise
distinct (each listed once) and sorted by name. -/
theorem root_completeness (g : OverlaysGenerator) (pkgs : List ResolvedPkg)
    (hN : (pkgs.map (fun p => p.name)).Nodup) (hdeps : depsClosed pkgs) :
    (∃ ov, generate g pkgs = Except.ok
        (_gen_imports g ++ ov ++ envExprOf g (pkgNamesOf g (pkgDict pkgs))))
    ∧ pkgNamesOf g (pkgDict pkgs)
        = pyConcat ((((pkgDict pkgs).map (fun kv => kv.2)).filter (fun q => q.is_root)).map
            (fun q => _get_ref_name g q.name q.ver ++ "\n" ++ "              "))
    ∧ (∀ q : ResolvedPkg,
        q ∈ ((pkgDict pkgs).map (fun kv => kv.2)).filter (fun q => q.is_root)
          ↔ q ∈ pkgs ∧ q.is_root = true)
    ∧ ((((pkgDict pkgs).map (fun kv => kv.2)).filter (fun q => q.is_root)).map
        (fun q => q.name)).Nodup
    ∧ ((((pkgDict pkgs).map (fun kv => kv.2)).filter (fun q => q.is_root)).map
        (fun q => q.name)).Sorted pyLe := by
  have hdict := pkgDict_eq pkgs hN
  have hfst : ∀ kv ∈ sortedPkgPairs pkgs, kv.1 = kv.2.name := by
    intro kv hkv
    obtain ⟨q, hq, rfl⟩ := mem_sortedPkgPairs.mp hkv
    rfl
  refine ⟨?_, ?_, ?_, ?_, ?_⟩
  · obtain ⟨body, hd, tl, hb, hg⟩ := generate_ok_of g pkgs hN hdeps
    exact ⟨hd ++ body ++ tl, hg⟩
  · unfold pkgNamesOf
    congr 1
    calc ((pkgDict pkgs).filter (fun kv => kv.2.is_root)).map
          (fun kv => _get_ref_name g kv.1 kv.2.ver ++ "\n" ++ "              ")
        = ((pkgDict pkgs).filter (fun kv => kv.2.is_root)).map
          (fun kv => (fun q => _get_ref_name g q.name q.ver ++ "\n" ++ "              ") kv.2) := by
          apply List.map_congr_left
          intro kv hkv
          have hmem : kv ∈ sortedPkgPairs pkgs := by
            rw [← hdict]
            exact List.mem_of_mem_filter hkv
          show _get_ref_name g kv.1 kv.2.ver ++ "\n" ++ "              "
            = _get_ref_name g kv.2.name kv.2.ver ++ "\n" ++ "              "
          rw [hfst kv hmem]
      _ = _ := filter_snd_map (pkgDict pkgs)
          (fun q => _get_ref_name g q.name q.ver ++ "\n" ++ "              ")
  · intro q
    rw [List.mem_filter]
    constructor
    · rintro ⟨hq, hr⟩
      exact ⟨(pkgDict_values_perm pkgs hN).mem_iff.mp hq, by simpa using hr⟩
    · rintro ⟨hq, hr⟩
      exact ⟨(pkgDict_values_perm pkgs hN).mem_iff.mpr hq, by simpa using hr⟩
  · have hperm := (pkgDict_values_perm pkgs hN).map (fun q : ResolvedPkg => q.name)
    have hnd : (((pkgDict pkgs).map (fun kv => kv.2)).map
        (fun q : ResolvedPkg => q.name)).Nodup := hperm.nodup_iff.mpr hN
    exact ((List.filter_sublist _).map (fun q : ResolvedPkg => q.name)).nodup hnd
  · show ((((pkgDict pkgs).map (fun kv => kv.2)).filter (fun q => q.is_root)).map
        (fun q => q.name)).Pairwise pyLe
    rw [List.pairwise_map]
    apply List.Pairwise.sublist (List.filter_sublist _)
    rw [List.pairwise_map]
    have hs : (pkgDict pkgs).Pairwise pairRel := by
      rw [hdict]
      exact sortedPkgPairs_sorted pkgs
    exact hs.imp (fun h => h)

/-- Witness for C6 at scenario (a) doubled: the set {A@1.0 root, B@2.0 root}
over the empty index generates successfully and the `pkg_names` string equals
the per-root-package concatenation of resolver references. -/
theorem root_completeness_witness :
    (generate (mkGen idxEmpty true) [pkgA, pkgB]).isOk = true
    ∧ pkgNamesOf (mkGen idxEmpty true) (pkgDict [pkgA, pkgB])
        = pyConcat ((((pkgDict [pkgA, pkgB]).map (fun kv => kv.2)).filter
            (fun q => q.is_root)).map
            (fun q => _get_ref_name (mkGen idxEmpty true) q.name q.ver
              ++ "\n" ++ "              ")) := by
  have h := root_completeness (mkGen idxEmpty true) [pkgA, pkgB] (by decide)
    (by intro p hp b hb
        simp only [List.mem_cons, List.not_mem_nil, or_false] at hp
        rcases hp with rfl | rfl
        · simp [pkgA] at hb
        · simp [pkgB] at hb)
  refine ⟨?_, h.2.1⟩
  obtain ⟨ov, hov⟩ := h.1
  rw [hov]
  rfl
